import Mathlib

/-!
# weblog-signals: the cursor (`lex.go`) and the entry parser (`log.go`)

A shallow embedding of the scanner, of the common / combined log-line parsers
and of the status tallies of `main.go`, followed by the properties established
about them.

Conventions of the embedding

* A Go `string` is its sequence of bytes, `Str = List Nat` (every byte `< 256`).
  Offsets are byte offsets, exactly as in Go.
* A `rune` is an `Int`; `eof` is `-1`.
* The cursor is mutated through a pointer in Go; here every operation returns
  the new cursor next to its result.
* `s[p:]` is `s.drop p` and `s[:p]` is `s.take p`.  Go panics on `s[p:]` when
  `p > len(s)`; the parsers only ever move the cursor with `match`, `next` and
  `span`, which keep `p ≤ len(s)`.
* The converters of the Go standard library (`net.ParseIP`, `time.Parse`,
  `http.ReadRequest`, `strconv.Atoi`, `url.ParseRequestURI`, and the
  formatters used by `String`) are not part of the repository: they are the
  fields of a `Lib`, over which every definition and theorem is generic.
-/

namespace Weblog

/-! ## Strings and the `strings` / `utf8` helpers used by the cursor -/

/-- A Go string, as its bytes. -/
abbrev Str := List Nat

/-- The rune `utf8.RuneError`, U+FFFD. -/
def RuneError : Int := 0xFFFD

/-- The constant `eof` of `lex.go`. -/
def eof : Int := -1

/-- UTF-8 encoding of a scalar value given as a natural number. -/
def encodeNat (c : Nat) : Str :=
  if c < 0x80 then [c]
  else if c < 0x800 then [0xC0 + c / 64, 0x80 + c % 64]
  else if c < 0x10000 then [0xE0 + c / 4096, 0x80 + c / 64 % 64, 0x80 + c % 64]
  else [0xF0 + c / 262144, 0x80 + c / 4096 % 64, 0x80 + c / 64 % 64, 0x80 + c % 64]

/-- Go's conversion `string(r)` of a rune: its UTF-8 encoding, and the encoding
of U+FFFD for a value that is not a valid code point. -/
def runeString (r : Int) : Str :=
  if 0 ≤ r ∧ r < 0x110000 ∧ ¬ (0xD800 ≤ r ∧ r ≤ 0xDFFF) then encodeNat r.toNat
  else [0xEF, 0xBF, 0xBD]

/-- Bytes of a list of characters. -/
def bytesOfChars : List Char → Str
  | [] => []
  | c :: cs => encodeNat c.toNat ++ bytesOfChars cs

/-- The Go string written as the Lean literal `s`. -/
def bytes (s : String) : Str := bytesOfChars s.toList

/-- Go's `utf8.DecodeRuneInString`: the first code point of `s` and its width in
bytes; `(RuneError, 0)` on the empty string and `(RuneError, 1)` on an invalid
encoding. -/
def decodeRune (s : Str) : Int × Nat :=
  match s with
  | [] => (RuneError, 0)
  | s0 :: t =>
    if s0 < 0x80 then ((s0 : Int), 1)
    else if s0 < 0xC2 then (RuneError, 1)
    else if s0 < 0xE0 then
      match t with
      | s1 :: _ =>
        if 0x80 ≤ s1 ∧ s1 ≤ 0xBF then (((s0 % 32 * 64 + s1 % 64 : Nat) : Int), 2)
        else (RuneError, 1)
      | [] => (RuneError, 1)
    else if s0 < 0xF0 then
      match t with
      | s1 :: s2 :: _ =>
        if (if s0 = 0xE0 then 0xA0 else 0x80) ≤ s1 ∧ s1 ≤ (if s0 = 0xED then 0x9F else 0xBF)
            ∧ 0x80 ≤ s2 ∧ s2 ≤ 0xBF then
          (((s0 % 16 * 4096 + s1 % 64 * 64 + s2 % 64 : Nat) : Int), 3)
        else (RuneError, 1)
      | _ => (RuneError, 1)
    else if s0 < 0xF5 then
      match t with
      | s1 :: s2 :: s3 :: _ =>
        if (if s0 = 0xF0 then 0x90 else 0x80) ≤ s1 ∧ s1 ≤ (if s0 = 0xF4 then 0x8F else 0xBF)
            ∧ 0x80 ≤ s2 ∧ s2 ≤ 0xBF ∧ 0x80 ≤ s3 ∧ s3 ≤ 0xBF then
          (((s0 % 8 * 262144 + s1 % 64 * 4096 + s2 % 64 * 64 + s3 % 64 : Nat) : Int), 4)
        else (RuneError, 1)
      | _ => (RuneError, 1)
    else (RuneError, 1)

/-- The Go slice expression `s[a:b]`. -/
def slice (s : Str) (a b : Nat) : Str := (s.take b).drop a

/-- Go's `strings.HasPrefix`. -/
def HasPrefix (s m : Str) : Bool := m.isPrefixOf s

/-- Byte index of the first occurrence of `m` in `s`, if there is one. -/
def indexOpt (s m : Str) : Option Nat :=
  match s with
  | [] => if m.isPrefixOf [] then some 0 else none
  | c :: t =>
    if m.isPrefixOf (c :: t) then some 0
    else
      match indexOpt t m with
      | some i => some (i + 1)
      | none => none

/-- Go's `strings.Index`: the index of the first occurrence, `-1` if none. -/
def Index (s m : Str) : Int :=
  match indexOpt s m with
  | some i => (i : Int)
  | none => -1

/-- Byte index of the last occurrence of `m` in `s`, if there is one. -/
def lastIndexOpt (s m : Str) : Option Nat :=
  match s with
  | [] => if m.isPrefixOf [] then some 0 else none
  | c :: t =>
    match lastIndexOpt t m with
    | some i => some (i + 1)
    | none => if m.isPrefixOf (c :: t) then some 0 else none

/-- Go's `strings.LastIndex`: the index of the last occurrence, `-1` if none. -/
def LastIndex (s m : Str) : Int :=
  match lastIndexOpt s m with
  | some i => (i : Int)
  | none => -1

/-- The code points of a string, as `for _, c := range s` yields them. The fuel
is the length of the string, and every step consumes at least one byte. -/
def runesAux : Nat → Str → List Int
  | 0, _ => []
  | _ + 1, [] => []
  | fuel + 1, c :: t =>
    (decodeRune (c :: t)).1 :: runesAux fuel ((c :: t).drop (decodeRune (c :: t)).2)

/-- The code points of `s`. -/
def runes (s : Str) : List Int := runesAux s.length s

/-- The scan of `strings.IndexAny`: `for i, c := range s`, returning the first
byte index `i` whose code point `c` is one of `set`; `base` is the index of the
head of `s`. -/
def indexAnyAux (set : List Int) : Nat → Nat → Str → Option Nat
  | 0, _, _ => none
  | _ + 1, _, [] => none
  | fuel + 1, base, c :: t =>
    if (decodeRune (c :: t)).1 ∈ set then some base
    else indexAnyAux set fuel (base + (decodeRune (c :: t)).2)
      ((c :: t).drop (decodeRune (c :: t)).2)

/-- Go's `strings.IndexAny`: the index of the first code point of `s` that is a
code point of `chars`, `-1` if none. -/
def IndexAny (s chars : Str) : Int :=
  match indexAnyAux (runes chars) s.length 0 s with
  | some i => (i : Int)
  | none => -1

/-! ## The cursor of `lex.go` -/

/-- The struct `lex`: the text, the byte offset, the width of the last code
point read by `next`, and the latched error. -/
structure lex (E : Type) where
  s : Str
  p : Nat
  width : Nat
  err : Option E

/-- The constructor `newLex`. -/
def newLex {E : Type} (s : Str) : lex E := ⟨s, 0, 0, none⟩

/-- The method `next`. -/
def lex.next {E : Type} (l : lex E) : Int × lex E :=
  if l.p ≥ l.s.length then (eof, l)
  else
    let d := decodeRune (l.s.drop l.p)
    (d.1, { l with width := d.2, p := l.p + d.2 })

/-- The method `ColumnNumber`. -/
def lex.ColumnNumber {E : Type} (l : lex E) : Int :=
  (l.p : Int) - LastIndex (l.s.take l.p) [10]

/-- The method `Err`. -/
def lex.Err {E : Type} (l : lex E) : Option E := l.err

/-- The method `setErr`: the first error wins. -/
def lex.setErr {E : Type} (l : lex E) (err : Option E) : lex E :=
  match l.err with
  | none => { l with err := err }
  | some _ => l

/-- The method `match` (a keyword of Lean, hence the underscore). -/
def lex.match_ {E : Type} (l : lex E) (m : Str) : Bool × lex E :=
  if !HasPrefix (l.s.drop l.p) m then (false, l)
  else (true, { l with p := l.p + m.length })

/-- The method `span`. -/
def lex.span {E : Type} (l : lex E) (m : Str) : (Str × Bool) × lex E :=
  let i := Index (l.s.drop l.p) m
  if i < 0 then (([], false), l)
  else
    ((slice l.s l.p (l.p + i.toNat), true), { l with p := l.p + (i.toNat + m.length) })

/-- The method `spanAny`. -/
def lex.spanAny {E : Type} (l : lex E) (chars : Str) : (Str × Bool) × lex E :=
  let i := IndexAny (l.s.drop l.p) chars
  if i < 0 then (([], false), l)
  else
    ((slice l.s l.p (l.p + i.toNat), true), { l with p := l.p + (i.toNat + chars.length) })

/-! ## The standard-library converters -/

/-- The functions of the Go standard library that `log.go` calls. A converter
that returns `(value, error)` in Go is an `Except`; `net.ParseIP`, which returns
`nil` on failure, is an `Option`. -/
structure Lib where
  /-- The type `net.IP` (non-nil values). -/
  IP : Type
  /-- The type `time.Time`. -/
  Time : Type
  /-- The type `http.Request`. -/
  Request : Type
  /-- The type `url.URL`. -/
  URL : Type
  /-- The error values of the library. -/
  Err : Type
  /-- `net.ParseIP`. -/
  ParseIP : Str → Option IP
  /-- `time.Parse`, applied to a layout and a text. -/
  timeParse : Str → Str → Except Err Time
  /-- The zero value `time.Time{}`. -/
  timeZero : Time
  /-- `Time.IsZero`. -/
  timeIsZero : Time → Bool
  /-- `Time.Format`, applied to a time and a layout. -/
  timeFormat : Time → Str → Str
  /-- `http.ReadRequest` on a reader over the given text. -/
  ReadRequest : Str → Except Err Request
  /-- `strconv.Atoi`. -/
  Atoi : Str → Except Err Int
  /-- `strconv.Itoa`. -/
  Itoa : Int → Str
  /-- `url.ParseRequestURI`. -/
  ParseRequestURI : Str → Except Err URL
  /-- `IP.String`. -/
  ipString : IP → Str
  /-- The field `Request.Method`. -/
  requestMethod : Request → Str
  /-- `Request.URL.RequestURI()`. -/
  requestURI : Request → Str
  /-- The field `Request.Proto`. -/
  requestProto : Request → Str
  /-- `URL.String`. -/
  urlString : URL → Str

/-! ## The entry parser of `log.go` -/

/-- The constant `timeLayout`. -/
def timeLayout : Str := bytes "02/Jan/2006:15:04:05 -0700"

/-- The error values built in `log.go`, each carrying the arguments of its
`fmt.Errorf`, and the errors handed over unchanged from a library converter. -/
inductive Error (LE : Type) where
  /-- `"%q: cannot find separator %q in line:\n %s \n"` with `l.s[l.p:]`, `sep`, `l.s`. -/
  | missingSeparator (rest sep line : Str)
  /-- `"expected %q but got EOF"` with `sep`. -/
  | expectedEOF (sep : Int)
  /-- `"%d: expected %q but got %q"` with the column, `sep` and the rune read. -/
  | expectedGot (col : Int) (sep r : Int)
  /-- `"cannot parse IP %q"` with the host text. -/
  | cannotParseIP (ip : Str)
  /-- An error returned by a library converter. -/
  | lib (e : LE)

/-- The struct `Entry`. A nil `net.IP`, `*http.Request` or `*url.URL` is `none`.
`ResponseTime` is a `float64`, kept as its IEEE-754 bit pattern. -/
structure Entry (L : Lib) where
  Host : Option L.IP
  User : Str
  Time : L.Time
  Request : Option L.Request
  Status : Int
  Bytes : Int
  Referer : Option L.URL
  UserAgent : Str
  XForwardedFor : Str
  ResponseTime : Nat

/-- The value `&Entry{}`: every field at its zero value. -/
def Entry.zero (L : Lib) : Entry L :=
  { Host := none, User := [], Time := L.timeZero, Request := none, Status := 0, Bytes := 0,
    Referer := none, UserAgent := [], XForwardedFor := [], ResponseTime := 0 }

/-- The comparison `x == 0` of a `float64` given by its bits: true for `+0` and `-0`. -/
def floatIsZero (bits : Nat) : Bool := bits % 2 ^ 63 == 0

/-- The method `Entry.String`. -/
def Entry.String {L : Lib} (e : Entry L) : Str :=
  let s : Str := []
  let s := match e.Host with
    | none => s ++ bytes "-"
    | some h => s ++ L.ipString h
  let s := s ++ bytes " "
  let s := s ++ bytes "- "
  let s := if e.User = [] then s ++ bytes "-" else s ++ e.User
  let s := s ++ bytes " "
  let s := if L.timeIsZero e.Time then s ++ bytes "-"
    else s ++ (bytes "[" ++ L.timeFormat e.Time timeLayout ++ bytes "]")
  let s := s ++ bytes " "
  let s := match e.Request with
    | none => s ++ bytes "-"
    | some r =>
      s ++ (bytes "\"" ++ L.requestMethod r ++ bytes " " ++ L.requestURI r ++ bytes " "
        ++ L.requestProto r ++ bytes "\"")
  let s := s ++ bytes " "
  let s := if e.Status < 0 then s ++ bytes "-" else s ++ L.Itoa e.Status
  let s := s ++ bytes " "
  let s := s ++ L.Itoa e.Bytes
  let s := s ++ bytes " "
  let s := match e.Referer with
    | none => s ++ bytes "-"
    | some u => s ++ (bytes "\"" ++ L.urlString u ++ bytes "\"")
  let s := s ++ bytes " "
  let s := if e.UserAgent = [] then s ++ bytes "-" else s ++ (bytes "\"" ++ e.UserAgent ++ bytes "\"")
  let s := if floatIsZero e.ResponseTime then s ++ bytes "xyz" else s
  s

/-- The cursor used by the parsers. -/
abbrev Lex (L : Lib) := lex (Error L.Err)

/-- The function `nextField`. -/
def nextField {L : Lib} (l : Lex L) (sep : Str) : (Str × Option (Error L.Err)) × Lex L :=
  match l.span sep with
  | ((_, false), l1) => (([], some (.missingSeparator (l1.s.drop l1.p) sep l1.s)), l1)
  | ((f, true), l1) => ((f, none), l1)

/-- The function `expect`. -/
def expect {L : Lib} (l : Lex L) (sep : Int) : Option (Error L.Err) × Lex L :=
  match l.match_ (runeString sep) with
  | (true, l1) => (none, l1)
  | (false, l1) =>
    match l1.next with
    | (r, l2) =>
      if r = eof then (some (.expectedEOF sep), l2)
      else (some (.expectedGot (l2.ColumnNumber - 1) sep r), l2)

/-- The function `common`. The pair is Go's `(*Entry, error)`; the cursor is
returned too, since `Combined` goes on reading from it. -/
def common (L : Lib) (l : Lex L) : (Option (Entry L) × Option (Error L.Err)) × Lex L :=
  let e : Entry L := Entry.zero L
  match nextField l (bytes " ") with
  | ((_, some err), l) => ((none, some err), l)
  | ((ip, none), l) =>
  let e := { e with Host := L.ParseIP ip }
  if e.Host.isNone then ((none, some (.cannotParseIP ip)), l) else
  match nextField l (bytes " ") with
  | ((_, some err), l) => ((none, some err), l)
  | ((_, none), l) =>
  match nextField l (bytes " ") with
  | ((_, some err), l) => ((none, some err), l)
  | ((user, none), l) =>
  let e := { e with User := user }
  match expect l 91 with
  | (some err, l) => ((none, some err), l)
  | (none, l) =>
  match nextField l (bytes "] ") with
  | ((_, some err), l) => ((none, some err), l)
  | ((t, none), l) =>
  match L.timeParse timeLayout t with
  | .error err => ((none, some (.lib err)), l)
  | .ok tm =>
  let e := { e with Time := tm }
  match expect l 34 with
  | (some err, l) => ((none, some err), l)
  | (none, l) =>
  match nextField l (bytes "\" ") with
  | ((_, some err), l) => ((none, some err), l)
  | ((r, none), l) =>
  match L.ReadRequest (r ++ bytes "\r\n\r\n") with
  | .error err => ((none, some (.lib err)), l)
  | .ok rq =>
  let e := { e with Request := some rq }
  match nextField l (bytes " ") with
  | ((_, some err), l) => ((none, some err), l)
  | ((s, none), l) =>
  match L.Atoi s with
  | .error err => ((none, some (.lib err)), l)
  | .ok st =>
  let e := { e with Status := st }
  let fb := nextField l (bytes " ")
  let l := fb.2
  let b := match fb.1.2 with
    | some _ => l.s.drop l.p
    | none => fb.1.1
  match L.Atoi b with
  | .error err => ((none, some (.lib err)), l)
  | .ok n =>
  let e := { e with Bytes := n }
  ((some e, none), l)

/-- The function `Common`. -/
def Common (L : Lib) (line : Str) : Option (Entry L) × Option (Error L.Err) :=
  let l : Lex L := newLex line
  (common L l).1

/-- The function `Combined`. The branch for a nil entry with a nil error stands for a
case that `common` never produces (`common_steps`); Go would dereference the nil
entry there. A failed `url.ParseRequestURI` returns a nil URL, which is what the
assignment stores in `Referer`. -/
def Combined (L : Lib) (line : Str) : Option (Entry L) × Option (Error L.Err) :=
  let l : Lex L := newLex line
  match common L l with
  | ((_, some err), _) => (none, some err)
  | ((none, none), _) => (none, none)
  | ((some e, none), l) =>
  match expect l 34 with
  | (some err, _) => (none, some err)
  | (none, l) =>
  match nextField l (bytes "\" ") with
  | ((_, some err), _) => (none, some err)
  | ((ref, none), l) =>
  let e := if ref ≠ bytes "-" then
      match L.ParseRequestURI ref with
      | .ok u => { e with Referer := some u }
      | .error _ => { e with Referer := none }
    else e
  match expect l 34 with
  | (some err, _) => (none, some err)
  | (none, l) =>
  match nextField l (bytes "\"") with
  | ((_, some err), _) => (none, some err)
  | ((uas, none), _) =>
  let e := { e with UserAgent := uas }
  (some e, none)

/-! ## The parser as an ordered list of steps

The specification describes the grammar as a strict sequence of steps, each an
expected literal (optional), a delimiter and a converter, run in order until the
first error. The definitions of this section follow that description; they are
compared with `common` and `Combined` further down. -/

/-- One step of the grammar: the literal expected first (if any), the delimiter
that ends the field, whether a missing delimiter means "take the remainder of
the line", and the converter that stores the field text in the entry. -/
structure StepSpec (L : Lib) where
  lit : Option Int
  sep : Str
  lastField : Bool
  conv : Str → Entry L → Except (Error L.Err) (Entry L)

/-- Runs one step on a cursor and a partially filled entry. -/
def runStep {L : Lib} (sp : StepSpec L) (st : Lex L × Entry L) :
    Except (Error L.Err) (Lex L × Entry L) :=
  let r := match sp.lit with
    | none => (none, st.1)
    | some c => expect st.1 c
  match r with
  | (some err, _) => .error err
  | (none, l) =>
    match nextField l sp.sep with
    | ((_, some err), l1) =>
      if sp.lastField then
        match sp.conv (l1.s.drop l1.p) st.2 with
        | .error e => .error e
        | .ok e => .ok (l1, e)
      else .error err
    | ((f, none), l1) =>
      match sp.conv f st.2 with
      | .error e => .error e
      | .ok e => .ok (l1, e)

/-- Runs the steps in order; the first error ends the run. -/
def runSteps {L : Lib} : List (StepSpec L) → Lex L × Entry L →
    Except (Error L.Err) (Lex L × Entry L)
  | [], st => .ok st
  | sp :: rest, st =>
    match runStep sp st with
    | .error err => .error err
    | .ok st1 => runSteps rest st1

/-- Step 1: the host, up to a space, converted by `net.ParseIP`. -/
def hostStep (L : Lib) : StepSpec L :=
  { lit := none, sep := bytes " ", lastField := false,
    conv := fun ip e =>
      match L.ParseIP ip with
      | none => .error (.cannotParseIP ip)
      | some h => .ok { e with Host := some h } }

/-- Step 2: the identity, up to a space, discarded. -/
def identStep (L : Lib) : StepSpec L :=
  { lit := none, sep := bytes " ", lastField := false, conv := fun _ e => .ok e }

/-- Step 3: the user, up to a space, stored verbatim. -/
def userStep (L : Lib) : StepSpec L :=
  { lit := none, sep := bytes " ", lastField := false,
    conv := fun u e => .ok { e with User := u } }

/-- Steps 4 and 5: the literal `[`, then the timestamp up to `] `, converted by
`time.Parse` with the fixed layout. -/
def timeStep (L : Lib) : StepSpec L :=
  { lit := some 91, sep := bytes "] ", lastField := false,
    conv := fun t e =>
      match L.timeParse timeLayout t with
      | .error err => .error (.lib err)
      | .ok tm => .ok { e with Time := tm } }

/-- Step 6: the literal `"`, then the request line up to `" `, converted by
`http.ReadRequest`. -/
def requestStep (L : Lib) : StepSpec L :=
  { lit := some 34, sep := bytes "\" ", lastField := false,
    conv := fun r e =>
      match L.ReadRequest (r ++ bytes "\r\n\r\n") with
      | .error err => .error (.lib err)
      | .ok rq => .ok { e with Request := some rq } }

/-- Step 7: the status, up to a space, converted by `strconv.Atoi`. -/
def statusStep (L : Lib) : StepSpec L :=
  { lit := none, sep := bytes " ", lastField := false,
    conv := fun s e =>
      match L.Atoi s with
      | .error err => .error (.lib err)
      | .ok n => .ok { e with Status := n } }

/-- Step 8: the bytes, up to a space or else the remainder of the line, converted by
`strconv.Atoi`. -/
def bytesStep (L : Lib) : StepSpec L :=
  { lit := none, sep := bytes " ", lastField := true,
    conv := fun b e =>
      match L.Atoi b with
      | .error err => .error (.lib err)
      | .ok n => .ok { e with Bytes := n } }

/-- The referer: the literal `"`, then the text up to `" `; `-` is absent, and a text
that `url.ParseRequestURI` rejects is left absent and is not an error. -/
def refererStep (L : Lib) : StepSpec L :=
  { lit := some 34, sep := bytes "\" ", lastField := false,
    conv := fun ref e =>
      if ref = bytes "-" then .ok e
      else
        match L.ParseRequestURI ref with
        | .ok u => .ok { e with Referer := some u }
        | .error _ => .ok { e with Referer := none } }

/-- The user agent: the literal `"`, then the text up to `"`, stored verbatim. -/
def agentStep (L : Lib) : StepSpec L :=
  { lit := some 34, sep := bytes "\"", lastField := false,
    conv := fun uas e => .ok { e with UserAgent := uas } }

/-- The steps of the common log format: host, identity, user, timestamp,
request line, status, bytes. -/
def commonSteps (L : Lib) : List (StepSpec L) :=
  [hostStep L, identStep L, userStep L, timeStep L, requestStep L, statusStep L, bytesStep L]

/-- The two further steps of the combined log format: referer and user agent. -/
def combinedSteps (L : Lib) : List (StepSpec L) := [refererStep L, agentStep L]

/-- The steps of the combined log format. -/
def allSteps (L : Lib) : List (StepSpec L) := commonSteps L ++ combinedSteps L

/-- The text of the literal a step expects first. -/
def litText (o : Option Int) : Str :=
  match o with
  | none => []
  | some c => runeString c

/-- The pair `(*Entry, error)` a run of the steps stands for. -/
def toResult {L : Lib} : Except (Error L.Err) (Lex L × Entry L) →
    Option (Entry L) × Option (Error L.Err)
  | .ok st => (some st.2, none)
  | .error err => (none, some err)

/-- The error `err` comes from the first step that fails: the steps before
step `k` all succeed, and step `k` fails with `err`. -/
def FirstFailure {L : Lib} (steps : List (StepSpec L)) (st : Lex L × Entry L)
    (err : Error L.Err) : Prop :=
  ∃ k sp st1, steps.get? k = some sp ∧ runSteps (steps.take k) st = .ok st1 ∧
    runStep sp st1 = .error err

/-- The cursor over the text `pre ++ rest` that stands right after `pre`, as the
parsers leave it: no code point read with `next`, no latched error. -/
def cur {E : Type} (pre rest : Str) : lex E := ⟨pre ++ rest, pre.length, 0, none⟩

/-! ## Lines of the combined log format

The input contract: `HOST IDENT USER [TIMESTAMP] "REQUEST" STATUS BYTES "REFERER" "USER_AGENT"`.
A line is described by the texts of its nine fields; these definitions are the
vocabulary in which the statements below speak about inputs. -/

/-- The texts of the nine fields of a line. -/
structure Fields where
  host : Str
  ident : Str
  user : Str
  time : Str
  request : Str
  status : Str
  bytes : Str
  referer : Str
  agent : Str

/-- The literal that opens field `k`: `[` for the timestamp, `"` for the request
line, the referer and the user agent, nothing for the other fields. -/
def fieldLit : Nat → Str
  | 3 => bytes "["
  | 4 => bytes "\""
  | 7 => bytes "\""
  | 8 => bytes "\""
  | _ => []

/-- The delimiter that ends field `k`. -/
def fieldSep : Nat → Str
  | 3 => bytes "] "
  | 4 => bytes "\" "
  | 7 => bytes "\" "
  | 8 => bytes "\""
  | _ => bytes " "

/-- The text of field `k` (fields are numbered from 0: host, identity, user,
timestamp, request line, status, bytes, referer, user agent). -/
def Fields.text (f : Fields) : Nat → Str
  | 0 => f.host
  | 1 => f.ident
  | 2 => f.user
  | 3 => f.time
  | 4 => f.request
  | 5 => f.status
  | 6 => f.bytes
  | 7 => f.referer
  | 8 => f.agent
  | _ => []

/-- Field `k` as it is written in the line: opening literal, text, delimiter. -/
def Fields.seg (f : Fields) (k : Nat) : Str := fieldLit k ++ (f.text k ++ fieldSep k)

/-- The first `k` fields of the line, each with its delimiter. -/
def Fields.upTo (f : Fields) : Nat → Str
  | 0 => []
  | k + 1 => f.upTo k ++ f.seg k

/-- The whole line. -/
def Fields.line (f : Fields) : Str := f.upTo 9

/-- The values the library converters give for the converted fields. -/
structure Values (L : Lib) where
  host : L.IP
  time : L.Time
  request : L.Request
  status : Int
  bytes : Int

/-- Field `k` is well-formed: its text does not contain its delimiter, and the
converter of the field (host, timestamp, request line, status, bytes) accepts
the text, with the value recorded in `v`. -/
def FieldOk (L : Lib) (f : Fields) (v : Values L) (k : Nat) : Prop :=
  ¬ fieldSep k <:+: f.text k ∧
  match k with
  | 0 => L.ParseIP f.host = some v.host
  | 3 => L.timeParse timeLayout f.time = .ok v.time
  | 4 => L.ReadRequest (f.request ++ bytes "\r\n\r\n") = .ok v.request
  | 5 => L.Atoi f.status = .ok v.status
  | 6 => L.Atoi f.bytes = .ok v.bytes
  | _ => True

/-- The entry after field `k` has been stored. -/
def setField (L : Lib) (f : Fields) (v : Values L) (k : Nat) (e : Entry L) : Entry L :=
  match k with
  | 0 => { e with Host := some v.host }
  | 2 => { e with User := f.user }
  | 3 => { e with Time := v.time }
  | 4 => { e with Request := some v.request }
  | 5 => { e with Status := v.status }
  | 6 => { e with Bytes := v.bytes }
  | 7 => if f.referer = bytes "-" then e
         else
           match L.ParseRequestURI f.referer with
           | .ok u => { e with Referer := some u }
           | .error _ => { e with Referer := none }
  | 8 => { e with UserAgent := f.agent }
  | _ => e

/-- The entry after the first `k` fields have been stored. -/
def entryUpTo (L : Lib) (f : Fields) (v : Values L) : Nat → Entry L
  | 0 => Entry.zero L
  | k + 1 => setField L f v k (entryUpTo L f v k)

/-! ## An executable instance of the converters

In `textLib` every converted value is kept as the text it was read from, so that
the parsers and `String` can be run on concrete lines. The theorems are stated
for an arbitrary `Lib`; `textLib` only serves to instantiate them. -/

/-- Value of a run of decimal digits, `none` if another byte occurs. -/
def digitsValue : Str → Nat → Option Nat
  | [], acc => some acc
  | c :: t, acc => if 48 ≤ c ∧ c ≤ 57 then digitsValue t (acc * 10 + (c - 48)) else none

/-- Decimal integers with an optional sign. -/
def textAtoi (s : Str) : Except Str Int :=
  match s with
  | [] => .error s
  | 45 :: t =>
    match t, digitsValue t 0 with
    | _ :: _, some n => .ok (-(n : Int))
    | _, _ => .error s
  | 43 :: t =>
    match t, digitsValue t 0 with
    | _ :: _, some n => .ok (n : Int)
    | _, _ => .error s
  | _ =>
    match digitsValue s 0 with
    | some n => .ok (n : Int)
    | none => .error s

/-- The decimal digits of a natural number, least significant first. -/
def digitsRev : Nat → Nat → Str
  | 0, _ => []
  | fuel + 1, n => if n < 10 then [48 + n] else (48 + n % 10) :: digitsRev fuel (n / 10)

/-- Decimal text of an integer. -/
def textItoa (n : Int) : Str :=
  if n < 0 then 45 :: (digitsRev (n.natAbs + 1) n.natAbs).reverse
  else (digitsRev (n.natAbs + 1) n.natAbs).reverse

/-- The words of a text, split at every space. -/
def words : Str → List Str
  | [] => [[]]
  | c :: t =>
    match words t with
    | [] => [[c]]
    | w :: ws => if c = 32 then [] :: w :: ws else (c :: w) :: ws

/-- A request line followed by an empty header block: three words and `\r\n\r\n`. -/
def textReadRequest (s : Str) : Except Str (Str × Str × Str) :=
  if (bytes "\r\n\r\n").isSuffixOf s then
    match words (s.take (s.length - 4)) with
    | [m, u, p] => .ok (m, u, p)
    | _ => .error s
  else .error s

/-- The instance: addresses are non-empty texts of hexadecimal digits, dots and
colons; timestamps are texts as long as the layout; URLs are non-empty texts
without a space that start with `/` or contain a colon. -/
def textLib : Lib where
  IP := Str
  Time := Str
  Request := Str × Str × Str
  URL := Str
  Err := Str
  ParseIP s :=
    if s ≠ [] ∧ s.all (fun c => (48 ≤ c && c ≤ 58) || c == 46 || (97 ≤ c && c ≤ 102)
        || (65 ≤ c && c ≤ 70)) then some s
    else none
  timeParse layout t := if t.length = layout.length then .ok t else .error t
  timeZero := []
  timeIsZero t := t.isEmpty
  timeFormat t _ := t
  ReadRequest := textReadRequest
  Atoi := textAtoi
  Itoa := textItoa
  ParseRequestURI s :=
    if s ≠ [] ∧ 32 ∉ s ∧ (s.head? = some 47 ∨ 58 ∈ s) then .ok s else .error s
  ipString h := h
  requestMethod r := r.1
  requestURI r := r.2.1
  requestProto r := r.2.2
  urlString u := u

/-- The line of concrete scenario 1. -/
def line1 : Str :=
  bytes "127.0.0.1 - frank [10/Oct/2000:13:55:36 -0700] \"GET /apache_pb.gif HTTP/1.0\" 200 2326 \"http://www.example.com/start.html\" \"Mozilla/4.08\""

/-- The fields of the line of concrete scenario 1. -/
def fields1 : Fields :=
  { host := bytes "127.0.0.1", ident := bytes "-", user := bytes "frank",
    time := bytes "10/Oct/2000:13:55:36 -0700", request := bytes "GET /apache_pb.gif HTTP/1.0",
    status := bytes "200", bytes := bytes "2326",
    referer := bytes "http://www.example.com/start.html", agent := bytes "Mozilla/4.08" }

/-- The values `textLib` gives for the fields of scenario 1. -/
def values1 : Values textLib :=
  { host := bytes "127.0.0.1", time := bytes "10/Oct/2000:13:55:36 -0700",
    request := (bytes "GET", bytes "/apache_pb.gif", bytes "HTTP/1.0"),
    status := 200, bytes := 2326 }

/-! ## Line numbers -/

/-- The loop of Go's `strings.Count` for a separator of two bytes or more: find the next
occurrence, count it, go on after it. The fuel bounds the number of occurrences. -/
def countLoop (m : Str) : Nat → Str → Nat
  | 0, _ => 0
  | fuel + 1, s =>
    match indexOpt s m with
    | none => 0
    | some i => 1 + countLoop m fuel (s.drop (i + m.length))

/-- Go's `strings.Count`: the number of non-overlapping occurrences of `m` in `s`; one
more than the number of code points of `s` for the empty `m`; the number of bytes equal
to `b` for a one-byte `m`. -/
def Count (s m : Str) : Nat :=
  match m with
  | [] => (runes s).length + 1
  | [b] => s.count b
  | _ => countLoop m s.length s

/-- The method `LineNumber`. -/
def lex.LineNumber {E : Type} (l : lex E) : Int :=
  1 + (Count (l.s.take l.p) [10] : Nat)

/-! ## Columns in errors, and the tallies of `main` -/

/-- The column number an error value carries: only the message that `expect` builds for
a mismatched code point (`"%d: expected %q but got %q"`) has one. -/
def Error.column {LE : Type} : Error LE → Option Int
  | .expectedGot col _ _ => some col
  | _ => none

/-- The counters that the scan loop of `main` updates in its `switch` on the status:
`counter200Lines`, `counter300Lines`, `counter400Lines`, `counterErrorLines` (`int64`,
incremented once per line at most, so far from overflow) and the `float64` sum
`sumResponseTime`, of a type `F` left abstract. -/
structure Tally (F : Type) where
  counter200Lines : Int
  counter300Lines : Int
  counter400Lines : Int
  counterErrorLines : Int
  sumResponseTime : F

/-- The `switch` of `main` (main.go:168-178) on the status and response time of a parsed
entry; `fadd` is the addition of `float64`. -/
def tallyStatus {F : Type} (fadd : F → F → F) (status : Int) (responseTime : F)
    (c : Tally F) : Tally F :=
  if status = 200 then
    { c with counter200Lines := c.counter200Lines + 1,
             sumResponseTime := fadd c.sumResponseTime responseTime }
  else if status ≥ 300 ∧ status < 399 then
    { c with counter300Lines := c.counter300Lines + 1 }
  else if status ≥ 400 ∧ status < 499 then
    { c with counter400Lines := c.counter400Lines + 1 }
  else if status ≥ 500 ∧ status < 599 then
    { c with counterErrorLines := c.counterErrorLines + 1 }
  else c

/-! ## Parsing back what `String` writes -/

/-- The request line that `String` writes between the quotes:
`Sprintf("%s %s %s", Method, URL.RequestURI(), Proto)`. -/
def requestLine (L : Lib) (r : L.Request) : Str :=
  L.requestMethod r ++ bytes " " ++ L.requestURI r ++ bytes " " ++ L.requestProto r

/-- Each library converter parses back the text that the matching formatter writes for
the field of `e`, and that text does not contain the delimiter of its field (nor is the
formatted referer the text `-`). -/
def ParsesBack (L : Lib) (e : Entry L) : Prop :=
  (∀ h, e.Host = some h → L.ParseIP (L.ipString h) = some h ∧ 32 ∉ L.ipString h) ∧
  (L.timeParse timeLayout (L.timeFormat e.Time timeLayout) = .ok e.Time ∧
    ¬ bytes "] " <:+: L.timeFormat e.Time timeLayout) ∧
  (∀ r, e.Request = some r →
    L.ReadRequest (requestLine L r ++ bytes "\r\n\r\n") = .ok r ∧
    ¬ bytes "\" " <:+: requestLine L r) ∧
  (L.Atoi (L.Itoa e.Status) = .ok e.Status ∧ 32 ∉ L.Itoa e.Status) ∧
  (L.Atoi (L.Itoa e.Bytes) = .ok e.Bytes ∧ 32 ∉ L.Itoa e.Bytes) ∧
  (∀ u, e.Referer = some u →
    L.ParseRequestURI (L.urlString u) = .ok u ∧ ¬ bytes "\" " <:+: L.urlString u ∧
    L.urlString u ≠ bytes "-")

/-- The entry that `Combined` returns with `textLib` on the line of scenario 1 with the
referer `-`. -/
def entryDash : Entry textLib :=
  { Host := some (bytes "127.0.0.1"), User := bytes "frank",
    Time := bytes "10/Oct/2000:13:55:36 -0700",
    Request := some (bytes "GET", bytes "/apache_pb.gif", bytes "HTTP/1.0"),
    Status := 200, Bytes := 2326, Referer := none,
    UserAgent := bytes "Mozilla/4.08", XForwardedFor := [], ResponseTime := 0 }

/-- The fields of the line that `String` writes for an entry with host `h`, request `r`
and referer `u`. -/
def printedFields (L : Lib) (e : Entry L) (h : L.IP) (r : L.Request) (u : L.URL) : Fields :=
  { host := L.ipString h, ident := bytes "-", user := e.User,
    time := L.timeFormat e.Time timeLayout, request := requestLine L r,
    status := L.Itoa e.Status, bytes := L.Itoa e.Bytes, referer := L.urlString u,
    agent := e.UserAgent }

/-! ## Occurrences of a separator -/

/-- The separator `m`, written right after `a`, has no occurrence that starts
inside `a`: in `a ++ m ++ r` its first occurrence is at index `a.length`. -/
def FirstOcc : Str → Str → Prop
  | [], _ => True
  | c :: a, m => ¬ m <+: (c :: a) ++ m ∧ FirstOcc a m

theorem isPrefixOf_eq_true_iff (m s : Str) : m.isPrefixOf s = true ↔ m <+: s := by
  simp

theorem prefix_append_right_iff (m x r : Str) (h : m.length ≤ x.length) :
    m <+: x ++ r ↔ m <+: x := by
  constructor
  · intro hm
    exact List.prefix_of_prefix_length_le hm (List.prefix_append x r) h
  · intro hm
    exact hm.trans (List.prefix_append x r)

theorem indexOpt_of_isPrefix (s m : Str) (h : m <+: s) : indexOpt s m = some 0 := by
  cases s with
  | nil => simp [indexOpt, h]
  | cons c t => simp [indexOpt, h]

theorem indexOpt_cons_of_not (c : Nat) (t m : Str) (h : ¬ m <+: c :: t) :
    indexOpt (c :: t) m = (indexOpt t m).map (· + 1) := by
  rw [indexOpt]
  simp only [isPrefixOf_eq_true_iff, h, if_false]
  cases indexOpt t m <;> rfl

theorem indexOpt_first (a m r : Str) (h : FirstOcc a m) :
    indexOpt (a ++ (m ++ r)) m = some a.length := by
  induction a with
  | nil => exact indexOpt_of_isPrefix _ _ (List.prefix_append m r)
  | cons c a ih =>
    obtain ⟨h1, h2⟩ := h
    have h3 : ¬ m <+: c :: (a ++ (m ++ r)) := by
      intro hm
      apply h1
      have : c :: (a ++ (m ++ r)) = ((c :: a) ++ m) ++ r := by simp
      rw [this, prefix_append_right_iff] at hm
      · exact hm
      · simp only [List.length_append, List.length_cons]; omega
    rw [List.cons_append, indexOpt_cons_of_not _ _ _ h3, ih h2]
    rfl

theorem indexOpt_eq_none_iff (s m : Str) : indexOpt s m = none ↔ ¬ m <:+: s := by
  induction s with
  | nil =>
    simp only [indexOpt, isPrefixOf_eq_true_iff, List.infix_nil, List.prefix_nil]
    by_cases h : m = [] <;> simp [h]
  | cons c t ih =>
    by_cases h : m <+: c :: t
    · rw [indexOpt_of_isPrefix _ _ h]
      simp only [reduceCtorEq, false_iff, not_not]
      exact h.isInfix
    · rw [indexOpt_cons_of_not _ _ _ h, List.infix_cons_iff]
      simp only [Option.map_eq_none', ih, h, false_or]

theorem indexOpt_some_inv (s m : Str) (i : Nat) (h : indexOpt s m = some i) :
    ∃ a r, s = a ++ (m ++ r) ∧ a.length = i ∧ FirstOcc a m := by
  induction s generalizing i with
  | nil =>
    simp only [indexOpt, isPrefixOf_eq_true_iff, List.prefix_nil] at h
    by_cases hm : m = []
    · subst hm
      simp only [if_true, Option.some.injEq] at h
      exact ⟨[], [], by simp, by simpa using h, trivial⟩
    · simp [hm] at h
  | cons c t ih =>
    by_cases hp : m <+: c :: t
    · rw [indexOpt_of_isPrefix _ _ hp] at h
      obtain ⟨r, hr⟩ := hp
      exact ⟨[], r, by simpa using hr.symm, by simpa using h, trivial⟩
    · rw [indexOpt_cons_of_not _ _ _ hp] at h
      cases hi : indexOpt t m with
      | none => simp [hi] at h
      | some j =>
        obtain ⟨a, r, hs, hl, hf⟩ := ih j hi
        simp only [hi, Option.map_some', Option.some.injEq] at h
        refine ⟨c :: a, r, by simp [hs], by simp [hl, h], ?_, hf⟩
        intro hm
        apply hp
        have : c :: t = ((c :: a) ++ m) ++ r := by simp [hs]
        rw [this]
        exact hm.trans (List.prefix_append _ r)

theorem Index_neg_iff (s m : Str) : Index s m < 0 ↔ ¬ m <:+: s := by
  rw [← indexOpt_eq_none_iff, Index]
  cases indexOpt s m with
  | none => simp
  | some i => simp

theorem Index_first (a m r : Str) (h : FirstOcc a m) :
    Index (a ++ (m ++ r)) m = (a.length : Int) := by
  simp [Index, indexOpt_first a m r h]

theorem firstOcc_single (a : Str) (c : Nat) : FirstOcc a [c] ↔ c ∉ a := by
  induction a with
  | nil => simp [FirstOcc]
  | cons d a ih =>
    simp only [FirstOcc, ih, List.cons_append, List.cons_prefix_cons, List.nil_prefix, and_true,
      List.mem_cons, not_or]

theorem firstOcc_pair (a : Str) (x y : Nat) (hxy : x ≠ y) (h : ¬ [x, y] <:+: a) :
    FirstOcc a [x, y] := by
  induction a with
  | nil => trivial
  | cons d a ih =>
    rw [List.infix_cons_iff, not_or] at h
    refine ⟨?_, ih h.2⟩
    intro hm
    apply h.1
    cases a with
    | nil =>
      simp only [List.cons_append, List.nil_append, List.cons_prefix_cons] at hm
      exact absurd hm.2.1.symm hxy
    | cons e a =>
      simp only [List.cons_append, List.cons_prefix_cons, List.nil_prefix, and_true] at hm
      simp [hm.1, hm.2]

/-! ## The cursor on a text split at its offset -/

theorem newLex_eq_cur {E : Type} (s : Str) : (newLex s : lex E) = cur [] s := rfl

theorem span_cur_ok {E : Type} (pre a m r : Str) (h : FirstOcc a m) :
    (cur pre (a ++ (m ++ r)) : lex E).span m = ((a, true), cur (pre ++ (a ++ m)) r) := by
  simp only [lex.span, cur, List.drop_left, Index_first a m r h, slice]
  simp [List.take_append]

theorem span_cur_fail {E : Type} (pre rest m : Str) (h : ¬ m <:+: rest) :
    (cur pre rest : lex E).span m = (([], false), cur pre rest) := by
  have := (Index_neg_iff rest m).2 h
  simp only [lex.span, cur, List.drop_left, this, if_true]

theorem nextField_cur_ok {L : Lib} (pre a m r : Str) (h : FirstOcc a m) :
    nextField (cur pre (a ++ (m ++ r)) : Lex L) m = ((a, none), cur (pre ++ (a ++ m)) r) := by
  simp only [nextField, span_cur_ok pre a m r h]

theorem nextField_cur_fail {L : Lib} (pre rest m : Str) (h : ¬ m <:+: rest) :
    nextField (cur pre rest : Lex L) m
      = (([], some (.missingSeparator rest m (pre ++ rest))), cur pre rest) := by
  simp only [nextField, span_cur_fail pre rest m h]
  simp [cur]

theorem expect_cur_ok {L : Lib} (pre r : Str) (c : Int) :
    expect (cur pre (runeString c ++ r) : Lex L) c = (none, cur (pre ++ runeString c) r) := by
  have h : List.isPrefixOf (runeString c) (runeString c ++ r) = true := by simp
  simp [expect, lex.match_, cur, HasPrefix, h]

/-! ## The parsers run the steps in order -/

theorem runSteps_append {L : Lib} (xs ys : List (StepSpec L)) (st : Lex L × Entry L) :
    runSteps (xs ++ ys) st
      = match runSteps xs st with
        | .error err => .error err
        | .ok st1 => runSteps ys st1 := by
  induction xs generalizing st with
  | nil => rfl
  | cons sp xs ih =>
    simp only [List.cons_append, runSteps]
    cases runStep sp st with
    | error err => rfl
    | ok st1 => exact ih st1

theorem common_steps (L : Lib) (l : Lex L) :
    common L l
      = match runSteps (commonSteps L) (l, Entry.zero L) with
        | .ok st => ((some st.2, none), st.1)
        | .error err => ((none, some err), (common L l).2) := by
  rcases h1 : nextField l (bytes " ") with ⟨⟨ip, _ | err⟩, l1⟩
  swap
  · simp [common, runSteps, runStep, commonSteps, hostStep, identStep, userStep, timeStep,
      requestStep, statusStep, bytesStep, h1]
  cases hip : L.ParseIP ip with
  | none => simp [common, runSteps, runStep, commonSteps, hostStep, identStep, userStep, timeStep,
      requestStep, statusStep, bytesStep, h1, hip]
  | some host =>
  rcases h2 : nextField l1 (bytes " ") with ⟨⟨ident, _ | err⟩, l2⟩
  swap
  · simp [common, runSteps, runStep, commonSteps, hostStep, identStep, userStep, timeStep,
      requestStep, statusStep, bytesStep, h1, hip, h2]
  rcases h3 : nextField l2 (bytes " ") with ⟨⟨user, _ | err⟩, l3⟩
  swap
  · simp [common, runSteps, runStep, commonSteps, hostStep, identStep, userStep, timeStep,
      requestStep, statusStep, bytesStep, h1, hip, h2, h3]
  rcases h4 : expect l3 91 with ⟨_ | err, l4⟩
  swap
  · simp [common, runSteps, runStep, commonSteps, hostStep, identStep, userStep, timeStep,
      requestStep, statusStep, bytesStep, h1, hip, h2, h3, h4]
  rcases h5 : nextField l4 (bytes "] ") with ⟨⟨t, _ | err⟩, l5⟩
  swap
  · simp [common, runSteps, runStep, commonSteps, hostStep, identStep, userStep, timeStep,
      requestStep, statusStep, bytesStep, h1, hip, h2, h3, h4, h5]
  cases ht : L.timeParse timeLayout t with
  | error err => simp [common, runSteps, runStep, commonSteps, hostStep, identStep, userStep, timeStep,
      requestStep, statusStep, bytesStep, h1, hip, h2, h3, h4, h5, ht]
  | ok tm =>
  rcases h6 : expect l5 34 with ⟨_ | err, l6⟩
  swap
  · simp [common, runSteps, runStep, commonSteps, hostStep, identStep, userStep, timeStep,
      requestStep, statusStep, bytesStep, h1, hip, h2, h3, h4, h5, ht, h6]
  rcases h7 : nextField l6 (bytes "\" ") with ⟨⟨r, _ | err⟩, l7⟩
  swap
  · simp [common, runSteps, runStep, commonSteps, hostStep, identStep, userStep, timeStep,
      requestStep, statusStep, bytesStep, h1, hip, h2, h3, h4, h5, ht, h6, h7]
  cases hr : L.ReadRequest (r ++ bytes "\r\n\r\n") with
  | error err =>
    simp [common, runSteps, runStep, commonSteps, hostStep, identStep, userStep, timeStep,
      requestStep, statusStep, bytesStep, h1, hip, h2, h3, h4, h5, ht, h6, h7, hr]
  | ok rq =>
  rcases h8 : nextField l7 (bytes " ") with ⟨⟨st, _ | err⟩, l8⟩
  swap
  · simp [common, runSteps, runStep, commonSteps, hostStep, identStep, userStep, timeStep,
      requestStep, statusStep, bytesStep, h1, hip, h2, h3, h4, h5, ht, h6, h7, hr, h8]
  cases hs : L.Atoi st with
  | error err =>
    simp [common, runSteps, runStep, commonSteps, hostStep, identStep, userStep, timeStep,
      requestStep, statusStep, bytesStep, h1, hip, h2, h3, h4, h5, ht, h6, h7, hr, h8, hs]
  | ok sn =>
  rcases h9 : nextField l8 (bytes " ") with ⟨⟨b, _ | err⟩, l9⟩
  · cases hb : L.Atoi b with
    | error err =>
      simp [common, runSteps, runStep, commonSteps, hostStep, identStep, userStep, timeStep,
      requestStep, statusStep, bytesStep, h1, hip, h2, h3, h4, h5, ht, h6, h7, hr, h8,
        hs, h9, hb]
    | ok bn =>
      simp [common, runSteps, runStep, commonSteps, hostStep, identStep, userStep, timeStep,
      requestStep, statusStep, bytesStep, h1, hip, h2, h3, h4, h5, ht, h6, h7, hr, h8,
        hs, h9, hb]
  · cases hb : L.Atoi (l9.s.drop l9.p) with
    | error err =>
      simp [common, runSteps, runStep, commonSteps, hostStep, identStep, userStep, timeStep,
      requestStep, statusStep, bytesStep, h1, hip, h2, h3, h4, h5, ht, h6, h7, hr, h8,
        hs, h9, hb]
    | ok bn =>
      simp [common, runSteps, runStep, commonSteps, hostStep, identStep, userStep, timeStep,
      requestStep, statusStep, bytesStep, h1, hip, h2, h3, h4, h5, ht, h6, h7, hr, h8,
        hs, h9, hb]

theorem Common_steps (L : Lib) (line : Str) :
    Common L line = toResult (runSteps (commonSteps L) (newLex line, Entry.zero L)) := by
  rw [Common, common_steps]
  cases runSteps (commonSteps L) (newLex line, Entry.zero L) <;> rfl

theorem Combined_steps (L : Lib) (line : Str) :
    Combined L line
      = toResult (runSteps (allSteps L) (newLex line, Entry.zero L)) := by
  rw [allSteps, runSteps_append, Combined, common_steps]
  cases hc : runSteps (commonSteps L) (newLex line, Entry.zero L) with
  | error err => simp [toResult]
  | ok st =>
  obtain ⟨l, e⟩ := st
  rcases h1 : expect l 34 with ⟨_ | err, l1⟩
  swap
  · simp [runSteps, runStep, combinedSteps, refererStep, agentStep, toResult, h1]
  rcases h2 : nextField l1 (bytes "\" ") with ⟨⟨ref, _ | err⟩, l2⟩
  swap
  · simp [runSteps, runStep, combinedSteps, refererStep, agentStep, toResult, h1, h2]
  rcases h3 : expect l2 34 with ⟨_ | err, l3⟩
  swap
  · by_cases hd : ref = bytes "-"
    · simp [runSteps, runStep, combinedSteps, refererStep, agentStep, toResult, h1, h2, h3, hd]
    · cases hu : L.ParseRequestURI ref <;>
        simp [runSteps, runStep, combinedSteps, refererStep, agentStep, toResult, h1, h2, h3, hd, hu]
  rcases h4 : nextField l3 (bytes "\"") with ⟨⟨uas, _ | err⟩, l4⟩
  swap
  · by_cases hd : ref = bytes "-"
    · simp [runSteps, runStep, combinedSteps, refererStep, agentStep, toResult, h1, h2, h3, h4, hd]
    · cases hu : L.ParseRequestURI ref <;>
        simp [runSteps, runStep, combinedSteps, refererStep, agentStep, toResult, h1, h2, h3, h4, hd, hu]
  by_cases hd : ref = bytes "-"
  · simp [runSteps, runStep, combinedSteps, refererStep, agentStep, toResult, h1, h2, h3, h4, hd]
  · cases hu : L.ParseRequestURI ref <;>
      simp [runSteps, runStep, combinedSteps, refererStep, agentStep, toResult, h1, h2, h3, h4, hd, hu]

/-! ## Running the steps on a well-formed line -/

theorem mem_of_singleton_isInfix (c : Nat) (a : Str) : [c] <:+: a ↔ c ∈ a := by
  constructor
  · rintro ⟨s, t, h⟩
    rw [← h]
    simp
  · intro h
    obtain ⟨s, t, rfl⟩ := List.append_of_mem h
    exact ⟨s, t, by simp⟩

theorem fieldSep_firstOcc (k : Nat) (a : Str) (h : ¬ fieldSep k <:+: a) :
    FirstOcc a (fieldSep k) := by
  unfold fieldSep at h ⊢
  split at h
  · exact firstOcc_pair a 93 32 (by decide) h
  · exact firstOcc_pair a 34 32 (by decide) h
  · exact firstOcc_pair a 34 32 (by decide) h
  · exact (firstOcc_single a 34).2 (fun hm => h ((mem_of_singleton_isInfix _ a).2 hm))
  · exact (firstOcc_single a 32).2 (fun hm => h ((mem_of_singleton_isInfix _ a).2 hm))

theorem cur_assoc {E : Type} (pre a b r : Str) :
    (cur ((pre ++ a) ++ b) r : lex E) = cur (pre ++ (a ++ b)) r := by
  rw [List.append_assoc]

theorem runStep_ok {L : Lib} (sp : StepSpec L) (pre a r : Str) (e e1 : Entry L)
    (hf : FirstOcc a sp.sep) (hc : sp.conv a e = .ok e1) :
    runStep sp (cur pre ((litText sp.lit ++ (a ++ sp.sep)) ++ r), e)
      = .ok (cur (pre ++ (litText sp.lit ++ (a ++ sp.sep))) r, e1) := by
  have h : (litText sp.lit ++ (a ++ sp.sep)) ++ r = litText sp.lit ++ (a ++ (sp.sep ++ r)) := by
    simp
  rw [h]
  cases hl : sp.lit with
  | none =>
    simp only [runStep, hl, litText, List.nil_append, nextField_cur_ok pre a sp.sep r hf, hc]
  | some c =>
    simp only [runStep, hl, litText, expect_cur_ok, nextField_cur_ok _ a sp.sep r hf, hc,
      cur_assoc]

theorem runStep_fail {L : Lib} (sp : StepSpec L) (pre rest : Str) (e : Entry L)
    (hlast : sp.lastField = false) (hno : ¬ sp.sep <:+: rest) :
    runStep sp (cur pre (litText sp.lit ++ rest), e)
      = .error (.missingSeparator rest sp.sep (pre ++ (litText sp.lit ++ rest))) := by
  cases hl : sp.lit with
  | none => simp [runStep, hl, litText, nextField_cur_fail pre rest sp.sep hno, hlast]
  | some c =>
    simp [runStep, hl, litText, expect_cur_ok, nextField_cur_fail _ rest sp.sep hno, hlast]

theorem step_field (L : Lib) (f : Fields) (v : Values L) (k : Nat) (hk : k < 9)
    (hok : FieldOk L f v k) (pre rest : Str) (e : Entry L) :
    ∃ sp, (allSteps L).get? k = some sp ∧ litText sp.lit = fieldLit k ∧ sp.sep = fieldSep k ∧
      runStep sp (cur pre (f.seg k ++ rest), e)
        = .ok (cur (pre ++ f.seg k) rest, setField L f v k e) := by
  obtain ⟨hsep, hconv⟩ := hok
  have hf := fieldSep_firstOcc k _ hsep
  interval_cases k
  all_goals refine ⟨_, rfl, rfl, rfl, runStep_ok _ pre _ rest e _ hf ?_⟩
  · simp only [hostStep, Fields.text, show L.ParseIP f.host = some v.host from hconv]
    rfl
  · rfl
  · rfl
  · simp only [timeStep, Fields.text,
      show L.timeParse timeLayout f.time = .ok v.time from hconv]
    rfl
  · simp only [requestStep, Fields.text,
      show L.ReadRequest (f.request ++ bytes "\r\n\r\n") = .ok v.request from hconv]
    rfl
  · simp only [statusStep, Fields.text, show L.Atoi f.status = .ok v.status from hconv]
    rfl
  · simp only [bytesStep, Fields.text, show L.Atoi f.bytes = .ok v.bytes from hconv]
    rfl
  · simp only [refererStep, setField, Fields.text]
    by_cases hd : f.referer = bytes "-"
    · simp only [hd, if_true]
    · simp only [hd, if_false]
      cases hu : L.ParseRequestURI f.referer <;> rfl
  · rfl

theorem runSteps_take_succ {L : Lib} (xs : List (StepSpec L)) (k : Nat) (sp : StepSpec L)
    (st st1 : Lex L × Entry L) (hsp : xs.get? k = some sp)
    (hpre : runSteps (xs.take k) st = .ok st1) :
    runSteps (xs.take (k + 1)) st = runSteps [sp] st1 := by
  rw [List.take_succ, runSteps_append, hpre]
  simp only [List.get?_eq_getElem?] at hsp
  simp [hsp]

theorem upTo_run (L : Lib) (f : Fields) (v : Values L) (k : Nat) (hk : k ≤ 9)
    (hok : ∀ j < k, FieldOk L f v j) (rest : Str) :
    runSteps ((allSteps L).take k) (cur [] (f.upTo k ++ rest), Entry.zero L)
      = .ok (cur (f.upTo k) rest, entryUpTo L f v k) := by
  induction k generalizing rest with
  | zero => rfl
  | succ k ih =>
    have h1 := ih (by omega) (fun j hj => hok j (by omega)) (f.seg k ++ rest)
    obtain ⟨sp, hsp, -, -, hrun⟩ :=
      step_field L f v k (by omega) (hok k (by omega)) (f.upTo k) rest (entryUpTo L f v k)
    have h2 : f.upTo (k + 1) ++ rest = f.upTo k ++ (f.seg k ++ rest) := by
      simp [Fields.upTo]
    rw [h2, runSteps_take_succ _ k sp _ _ hsp h1]
    simp only [runSteps, hrun]
    rfl

theorem runStep_last {L : Lib} (sp : StepSpec L) (pre rest : Str) (e e1 : Entry L)
    (hlit : sp.lit = none) (hlast : sp.lastField = true) (hno : ¬ sp.sep <:+: rest)
    (hc : sp.conv rest e = .ok e1) :
    runStep sp (cur pre rest, e) = .ok (cur pre rest, e1) := by
  simp only [runStep, hlit, nextField_cur_fail pre rest sp.sep hno, hlast, if_true]
  simp [cur, hc]

theorem Combined_wellformed (L : Lib) (f : Fields) (v : Values L)
    (hok : ∀ j < 9, FieldOk L f v j) (t : Str) :
    Combined L (f.line ++ t) = (some (entryUpTo L f v 9), none) := by
  have h := upTo_run L f v 9 (le_refl 9) hok t
  have h9 : (allSteps L).take 9 = allSteps L := rfl
  rw [h9] at h
  rw [Combined_steps, newLex_eq_cur, Fields.line, h]
  rfl

theorem Common_wellformed (L : Lib) (f : Fields) (v : Values L)
    (hok : ∀ j < 7, FieldOk L f v j) (t : Str) :
    Common L (f.upTo 7 ++ t) = (some (entryUpTo L f v 7), none) := by
  have h := upTo_run L f v 7 (by omega) hok t
  have h7 : (allSteps L).take 7 = commonSteps L := rfl
  rw [h7] at h
  rw [Common_steps, newLex_eq_cur, h]
  rfl

set_option maxRecDepth 100000 in
theorem line1_eq : line1 = fields1.line := by decide

set_option maxRecDepth 100000 in
theorem fields1_ok : ∀ j < 9, FieldOk textLib fields1 values1 j := by
  intro j hj
  interval_cases j <;> exact ⟨by decide, by trivial⟩

/-! ## The literals of the format, as bytes -/

theorem bytes_space : bytes " " = [32] := by decide

theorem bytes_dash : bytes "-" = [45] := by decide

theorem bytes_dash_space : bytes "- " = [45, 32] := by decide

theorem bytes_lbracket : bytes "[" = [91] := by decide

theorem bytes_rbracket : bytes "]" = [93] := by decide

theorem bytes_rbracket_space : bytes "] " = [93, 32] := by decide

theorem bytes_quote : bytes "\"" = [34] := by decide

theorem bytes_quote_space : bytes "\" " = [34, 32] := by decide

theorem bytes_xyz : bytes "xyz" = [120, 121, 122] := by decide

/-! ## Round trip of `String` after `Combined` -/

/-- C1. On a well-formed combined-format line with every field present and
identity `-`, whose converted fields are formatted back to the text they were
read from, `Combined` succeeds and `String` of the entry is the line followed
by `xyz`; so it is never the line itself. -/
theorem String_after_Combined (L : Lib) (f : Fields) (v : Values L) (u : L.URL)
    (hok : ∀ j < 9, FieldOk L f v j)
    (hident : f.ident = bytes "-") (huser : f.user ≠ []) (hagent : f.agent ≠ [])
    (href : f.referer ≠ bytes "-") (hu : L.ParseRequestURI f.referer = .ok u)
    (hip : L.ipString v.host = f.host)
    (htz : L.timeIsZero v.time = false) (htf : L.timeFormat v.time timeLayout = f.time)
    (hrq : L.requestMethod v.request ++ bytes " " ++ L.requestURI v.request ++ bytes " "
      ++ L.requestProto v.request = f.request)
    (hst : 0 ≤ v.status) (hsi : L.Itoa v.status = f.status) (hbi : L.Itoa v.bytes = f.bytes)
    (hus : L.urlString u = f.referer) :
    ∃ e, Combined L f.line = (some e, none) ∧ e.String = f.line ++ bytes "xyz"
      ∧ e.String ≠ f.line := by
  have hc := Combined_wellformed L f v hok []
  rw [List.append_nil] at hc
  have hs : (entryUpTo L f v 9).String = f.line ++ bytes "xyz" := by
    simp only [entryUpTo, setField, href, if_false, hu, Entry.String, Entry.zero, huser, hagent,
      hip, htz, htf, hsi, hbi, hus, not_lt.2 hst, floatIsZero, Fields.line, Fields.upTo,
      Fields.seg, Fields.text, fieldLit, fieldSep, hident, ← hrq]
    simp [bytes_space, bytes_dash, bytes_dash_space, bytes_lbracket, bytes_rbracket,
      bytes_rbracket_space, bytes_quote, bytes_quote_space]
  refine ⟨_, hc, hs, ?_⟩
  rw [hs]
  intro h
  have := congrArg List.length h
  simp [bytes_xyz] at this

set_option maxRecDepth 100000 in
/-- Witness of C1 on the line of concrete scenario 1, with the converters of `textLib`. -/
theorem String_after_Combined_witness :
    (∀ j < 9, FieldOk textLib fields1 values1 j) ∧
    ∃ e, Combined textLib fields1.line = (some e, none) ∧ e.String = fields1.line ++ bytes "xyz"
      ∧ e.String ≠ fields1.line :=
  ⟨fields1_ok,
    String_after_Combined textLib fields1 values1 (bytes "http://www.example.com/start.html")
      fields1_ok (by decide) (by decide) (by decide) (by decide) rfl rfl rfl rfl rfl
      (by decide) rfl rfl rfl⟩

/-! ## Concrete scenario 1 -/

set_option maxRecDepth 100000 in
/-- C2. Concrete scenario 1: when the library converters accept the host, timestamp,
request-line, status, bytes and referer texts of the line, `Combined` returns no error
and the entry holds the host parsed from `127.0.0.1`, user `frank`, status 200,
bytes 2326, the referer parsed from `http://www.example.com/start.html` and user agent
`Mozilla/4.08`. -/
theorem scenario1_parses (L : Lib) (h : L.IP) (tm : L.Time) (rq : L.Request) (u : L.URL)
    (hip : L.ParseIP (bytes "127.0.0.1") = some h)
    (ht : L.timeParse timeLayout (bytes "10/Oct/2000:13:55:36 -0700") = .ok tm)
    (hr : L.ReadRequest (bytes "GET /apache_pb.gif HTTP/1.0" ++ bytes "\r\n\r\n") = .ok rq)
    (hs : L.Atoi (bytes "200") = .ok 200)
    (hb : L.Atoi (bytes "2326") = .ok 2326)
    (hu : L.ParseRequestURI (bytes "http://www.example.com/start.html") = .ok u) :
    Combined L line1
      = (some { Host := some h, User := bytes "frank", Time := tm, Request := some rq,
                Status := 200, Bytes := 2326, Referer := some u,
                UserAgent := bytes "Mozilla/4.08", XForwardedFor := [], ResponseTime := 0 },
         none) := by
  have hok : ∀ j < 9, FieldOk L fields1 ⟨h, tm, rq, 200, 2326⟩ j := by
    intro j hj
    interval_cases j
    · exact ⟨by decide, hip⟩
    · exact ⟨by decide, trivial⟩
    · exact ⟨by decide, trivial⟩
    · exact ⟨by decide, ht⟩
    · exact ⟨by decide, hr⟩
    · exact ⟨by decide, hs⟩
    · exact ⟨by decide, hb⟩
    · exact ⟨by decide, trivial⟩
    · exact ⟨by decide, trivial⟩
  have hc := Combined_wellformed L fields1 ⟨h, tm, rq, 200, 2326⟩ hok []
  rw [List.append_nil, ← line1_eq] at hc
  rw [hc]
  have hne : fields1.referer ≠ bytes "-" := by decide
  have hu1 : L.ParseRequestURI fields1.referer = .ok u := hu
  simp only [entryUpTo, setField, hne, if_false, hu1, Entry.zero]
  rfl

set_option maxRecDepth 100000 in
/-- Witness of C2 with the converters of `textLib`. -/
theorem scenario1_parses_witness :
    Combined textLib line1
      = (some { Host := some (bytes "127.0.0.1"), User := bytes "frank",
                Time := bytes "10/Oct/2000:13:55:36 -0700",
                Request := some (bytes "GET", bytes "/apache_pb.gif", bytes "HTTP/1.0"),
                Status := 200, Bytes := 2326,
                Referer := some (bytes "http://www.example.com/start.html"),
                UserAgent := bytes "Mozilla/4.08", XForwardedFor := [], ResponseTime := 0 },
         none) :=
  scenario1_parses textLib (bytes "127.0.0.1") (bytes "10/Oct/2000:13:55:36 -0700")
    (bytes "GET", bytes "/apache_pb.gif", bytes "HTTP/1.0")
    (bytes "http://www.example.com/start.html")
    rfl rfl rfl rfl rfl rfl

/-! ## The offset of the cursor -/

theorem decodeRune_width_le (s : Str) : (decodeRune s).2 ≤ s.length := by
  unfold decodeRune
  repeat' split
  all_goals simp only [List.length_cons, List.length_nil]
  all_goals omega

theorem next_offset {E : Type} (l : lex E) (h : l.p ≤ l.s.length) :
    l.p ≤ l.next.2.p ∧ l.next.2.p ≤ l.s.length := by
  unfold lex.next
  split
  · exact ⟨le_refl _, h⟩
  · have := decodeRune_width_le (l.s.drop l.p)
    simp only [List.length_drop] at this
    constructor
    · simp
    · simp only
      omega

theorem match_offset {E : Type} (l : lex E) (m : Str) (h : l.p ≤ l.s.length) :
    l.p ≤ (l.match_ m).2.p ∧ (l.match_ m).2.p ≤ l.s.length := by
  unfold lex.match_
  split
  · exact ⟨le_refl _, h⟩
  · rename_i hp
    simp only [HasPrefix, Bool.not_eq_true, Bool.not_eq_false_eq_eq_true, Bool.not_eq_true',
      Bool.not_eq_false] at hp
    have hlen := (List.isPrefixOf_iff_prefix.1 hp).length_le
    simp only [List.length_drop] at hlen
    constructor
    · simp
    · simp only
      omega

theorem span_offset {E : Type} (l : lex E) (m : Str) (h : l.p ≤ l.s.length) :
    l.p ≤ (l.span m).2.p ∧ (l.span m).2.p ≤ l.s.length := by
  unfold lex.span
  simp only
  split
  · exact ⟨le_refl _, h⟩
  · rename_i hi
    cases ho : indexOpt (l.s.drop l.p) m with
    | none => simp [Index, ho] at hi
    | some i =>
      obtain ⟨a, r, hs, hl, -⟩ := indexOpt_some_inv _ _ _ ho
      have hlen := congrArg List.length hs
      simp only [List.length_drop, List.length_append] at hlen
      simp only [Index, ho, Int.toNat_ofNat]
      constructor
      · omega
      · omega

/-- C4. The offset invariant breaks on `spanAny`: on the text `a,` at offset 0, with the
delimiter set `,;`, the cursor is within the text before the call and beyond its end
(offset 3, length 2) after it. -/
theorem spanAny_offset_exceeds_length :
    (⟨bytes "a,", 0, 0, none⟩ : lex Unit).p ≤ (bytes "a,").length ∧
    ((⟨bytes "a,", 0, 0, none⟩ : lex Unit).spanAny (bytes ",;")).1 = (bytes "a", true) ∧
    ((⟨bytes "a,", 0, 0, none⟩ : lex Unit).spanAny (bytes ",;")).2.p = 3 ∧
    ¬ ((⟨bytes "a,", 0, 0, none⟩ : lex Unit).spanAny (bytes ",;")).2.p ≤ (bytes "a,").length := by
  decide

/-! ## `spanAny` -/

theorem spanAny_result {E : Type} (l : lex E) (chars : Str) :
    (IndexAny (l.s.drop l.p) chars < 0 → l.spanAny chars = (([], false), l)) ∧
    (0 ≤ IndexAny (l.s.drop l.p) chars →
      (l.spanAny chars).1
        = (slice l.s l.p (l.p + (IndexAny (l.s.drop l.p) chars).toNat), true) ∧
      (l.spanAny chars).2.p
        = l.p + ((IndexAny (l.s.drop l.p) chars).toNat + chars.length)) := by
  constructor
  · intro h
    simp [lex.spanAny, h]
  · intro h
    simp [lex.spanAny, not_lt.2 h]

/-- C3. On the text `a,b` at offset 0, with the delimiter set `;,`, the first
delimiter code point is the comma at byte index 1, one byte wide; `spanAny` returns
`a` and moves the offset to 3 = 0 + 1 + len(";,"), not to 2 = 0 + 1 + 1. -/
theorem spanAny_consumes_set_length :
    IndexAny (bytes "a,b") (bytes ";,") = 1 ∧
    decodeRune ((bytes "a,b").drop 1) = (44, 1) ∧
    ((⟨bytes "a,b", 0, 0, none⟩ : lex Unit).spanAny (bytes ";,")).1 = (bytes "a", true) ∧
    ((⟨bytes "a,b", 0, 0, none⟩ : lex Unit).spanAny (bytes ";,")).2.p = 3 := by
  decide

/-! ## The column reported by `expect` -/

theorem lastIndexOpt_append_byte (x : Str) (b : Nat) (hb : b ≠ 10) :
    lastIndexOpt (x ++ [b]) [10] = lastIndexOpt x [10] := by
  induction x with
  | nil =>
    have h : ¬ (10 = b) := fun h => hb h.symm
    simp [lastIndexOpt, h]
  | cons c x ih =>
    have h1 : lastIndexOpt (c :: (x ++ [b])) [10]
        = match lastIndexOpt (x ++ [b]) [10] with
          | some i => some (i + 1)
          | none => if List.isPrefixOf [10] (c :: (x ++ [b])) then some 0 else none := by
      rw [lastIndexOpt]
    have h2 : lastIndexOpt (c :: x) [10]
        = match lastIndexOpt x [10] with
          | some i => some (i + 1)
          | none => if List.isPrefixOf [10] (c :: x) then some 0 else none := by
      rw [lastIndexOpt]
    rw [List.cons_append, h1, h2, ih]
    cases lastIndexOpt x [10] <;> simp

theorem expect_column_one_byte {L : Lib} (l : Lex L) (c : Int) (b : Nat) (rest : Str)
    (hs : l.s.drop l.p = b :: rest) (hb : b < 128) (hnl : b ≠ 10)
    (hne : ¬ runeString c <+: b :: rest) :
    (expect l c).1 = some (.expectedGot l.ColumnNumber c b) := by
  have hlt : l.p < l.s.length := by
    by_contra hge
    rw [List.drop_eq_nil_of_le (by omega)] at hs
    cases hs
  have hm : HasPrefix (b :: rest) (runeString c) = false := by
    rw [HasPrefix]
    cases h : (runeString c).isPrefixOf (b :: rest) with
    | false => rfl
    | true => exact absurd ((isPrefixOf_eq_true_iff _ _).1 h) hne
  have hd : decodeRune (b :: rest) = ((b : Int), 1) := by
    simp [decodeRune, hb]
  have htake : l.s.take (l.p + 1) = l.s.take l.p ++ [b] := by
    rw [List.take_succ, List.getElem?_eq_getElem hlt]
    have := List.getElem_drop' (L := l.s) (i := l.p) (j := 0) (by simpa using hlt)
    simp only [hs, List.getElem_cons_zero, add_zero] at this
    simp [← this]
  have hneof : ¬ ((b : Int) = eof) := by
    simp only [eof]
    omega
  simp only [expect, lex.match_, hm, Bool.not_false, if_true, lex.next, ge_iff_le,
    not_le.2 hlt, if_false, hs, hd, hneof, lex.ColumnNumber, htake, LastIndex,
    lastIndexOpt_append_byte _ b hnl]
  congr 2
  push_cast
  ring

theorem runeString_ne_nil (c : Int) : runeString c ≠ [] := by
  unfold runeString encodeNat
  repeat' split
  all_goals simp

theorem expect_at_end {L : Lib} (l : Lex L) (c : Int) (h : l.s.length ≤ l.p) :
    (expect l c).1 = some (.expectedEOF c) := by
  have hd : l.s.drop l.p = [] := List.drop_eq_nil_of_le h
  have hm : HasPrefix [] (runeString c) = false := by
    have := runeString_ne_nil c
    cases hr : runeString c with
    | nil => exact absurd hr this
    | cons x xs => rfl
  simp [expect, lex.match_, hd, hm, lex.next, h]

/-- C10. On the text `é` (two bytes) at offset 0, where `ColumnNumber` is 1, `expect`
with the literal `[` reports the rune `é` at column 2, the column of its last byte.
Through the parser: on the line `1.1.1.1 - u é`, where `é` starts at byte offset 12
(column 13), `Combined` reports it at column 14. -/
theorem expect_column_multibyte (L : Lib) :
    (newLex (bytes "é") : Lex L).ColumnNumber = 1 ∧
    (expect (newLex (bytes "é") : Lex L) 91).1 = some (.expectedGot 2 91 233) ∧
    (⟨bytes "1.1.1.1 - u é", 12, 0, none⟩ : Lex L).ColumnNumber = 13 ∧
    (expect (⟨bytes "1.1.1.1 - u é", 12, 0, none⟩ : Lex L) 91).1
      = some (.expectedGot 14 91 233) ∧
    Combined textLib (bytes "1.1.1.1 - u é") = (none, some (.expectedGot 14 91 233)) :=
  ⟨rfl, rfl, rfl, rfl, rfl⟩

/-! ## Steps that fail -/

theorem step_shape (L : Lib) (k : Nat) (hk : k < 9) :
    ∃ sp, (allSteps L).get? k = some sp ∧ litText sp.lit = fieldLit k ∧ sp.sep = fieldSep k ∧
      (sp.lastField = true ↔ k = 6) := by
  interval_cases k <;>
    exact ⟨_, rfl, rfl, rfl, by
      simp [hostStep, identStep, userStep, timeStep, requestStep, statusStep, bytesStep,
        refererStep, agentStep]⟩

theorem runSteps_fail_at {L : Lib} (xs : List (StepSpec L)) (k : Nat) (sp : StepSpec L)
    (st st1 : Lex L × Entry L) (err : Error L.Err) (hsp : xs.get? k = some sp)
    (hpre : runSteps (xs.take k) st = .ok st1) (hfail : runStep sp st1 = .error err) :
    runSteps xs st = .error err := by
  have hx : xs = xs.take k ++ (sp :: xs.drop (k + 1)) := by
    simp only [List.get?_eq_getElem?] at hsp
    obtain ⟨hlt, hget⟩ := List.getElem?_eq_some_iff.1 hsp
    rw [← hget, ← List.drop_eq_getElem_cons hlt, List.take_append_drop]
  rw [hx, runSteps_append, hpre]
  simp only [runSteps, hfail]

/-- C5. Missing separator is a hard error. Let the line consist of `k` well-formed
fields (`k` = 0 host, 1 identity, 2 user, 3 timestamp, 4 request line, 5 status,
7 referer, 8 user agent: every delimited field but the bytes), then the literal that
opens field `k`, then a remainder in which the delimiter of field `k` does not occur.
Then `Combined` returns no entry and the missing-separator error that carries this
remainder, this delimiter and the whole line. -/
theorem missing_separator (L : Lib) (f : Fields) (v : Values L) (k : Nat) (rest : Str)
    (hk : k ≤ 8) (hk6 : k ≠ 6) (hok : ∀ j < k, FieldOk L f v j)
    (hno : ¬ fieldSep k <:+: rest) :
    Combined L (f.upTo k ++ (fieldLit k ++ rest))
      = (none, some (.missingSeparator rest (fieldSep k) (f.upTo k ++ (fieldLit k ++ rest)))) := by
  obtain ⟨sp, hsp, hlit, hsep, hlast⟩ := step_shape L k (by omega)
  have hpre := upTo_run L f v k (by omega) hok (fieldLit k ++ rest)
  have hl : sp.lastField = false := by
    cases h : sp.lastField with
    | false => rfl
    | true => exact absurd (hlast.1 h) hk6
  have hfail := runStep_fail sp (f.upTo k) rest (entryUpTo L f v k) hl (by rwa [hsep])
  rw [hlit, hsep] at hfail
  rw [Combined_steps, newLex_eq_cur, runSteps_fail_at _ k sp _ _ _ hsp hpre hfail]
  rfl

set_option maxRecDepth 100000 in
/-- Witness of C5: the line of scenario 1 cut after the timestamp text (field 3, no `] `)
and the same line without the closing quote of the user agent (field 8). -/
theorem missing_separator_witness :
    Combined textLib (bytes "127.0.0.1 - frank [10/Oct/2000:13:55:36 -0700")
      = (none, some (.missingSeparator (bytes "10/Oct/2000:13:55:36 -0700") (bytes "] ")
          (bytes "127.0.0.1 - frank [10/Oct/2000:13:55:36 -0700"))) ∧
    Combined textLib (fields1.upTo 8 ++ bytes "\"Mozilla/4.08")
      = (none, some (.missingSeparator (bytes "Mozilla/4.08") (bytes "\"")
          (fields1.upTo 8 ++ bytes "\"Mozilla/4.08"))) :=
  ⟨missing_separator textLib fields1 values1 3 (bytes "10/Oct/2000:13:55:36 -0700")
      (by decide) (by decide) (fun j hj => fields1_ok j (by omega)) (by decide),
    missing_separator textLib fields1 values1 8 (bytes "Mozilla/4.08")
      (by decide) (by decide) (fun j hj => fields1_ok j (by omega)) (by decide)⟩

/-! ## The referer -/

/-- C6. Referer soft failure. On a line whose nine fields are well-formed (followed by
any text), whose referer text is not `-` and is rejected by the URL parser, `Combined`
returns no error and an entry without referer; the other fields are those of the same
line with a referer the URL parser accepts. -/
theorem referer_soft_failure (L : Lib) (f : Fields) (v : Values L) (err : L.Err) (t : Str)
    (hok : ∀ j < 9, FieldOk L f v j) (hne : f.referer ≠ bytes "-")
    (herr : L.ParseRequestURI f.referer = .error err) :
    Combined L (f.line ++ t)
      = (some { Host := some v.host, User := f.user, Time := v.time, Request := some v.request,
                Status := v.status, Bytes := v.bytes, Referer := none, UserAgent := f.agent,
                XForwardedFor := [], ResponseTime := 0 }, none) ∧
    ∀ (ref : Str) (u : L.URL), ¬ bytes "\" " <:+: ref → ref ≠ bytes "-" →
      L.ParseRequestURI ref = .ok u →
      Combined L (({ f with referer := ref } : Fields).line ++ t)
        = (some { Host := some v.host, User := f.user, Time := v.time,
                  Request := some v.request, Status := v.status, Bytes := v.bytes,
                  Referer := some u, UserAgent := f.agent, XForwardedFor := [],
                  ResponseTime := 0 }, none) := by
  constructor
  · rw [Combined_wellformed L f v hok t]
    simp only [entryUpTo, setField, hne, if_false, herr, Entry.zero]
  · intro ref u hsep hd hu
    have hok2 : ∀ j < 9, FieldOk L { f with referer := ref } v j := by
      intro j hj
      by_cases h7 : j = 7
      · subst h7
        exact ⟨hsep, trivial⟩
      · have := hok j hj
        interval_cases j <;> first | exact this | exact absurd rfl h7
    rw [Combined_wellformed L _ v hok2 t]
    simp only [entryUpTo, setField, hd, if_false, hu, Entry.zero]

set_option maxRecDepth 100000 in
/-- Witness of C6: the line of scenario 1 with the referer `not a url`. -/
theorem referer_soft_failure_witness :
    Combined textLib (({ fields1 with referer := bytes "not a url" } : Fields).line ++ [])
      = (some { Host := some (bytes "127.0.0.1"), User := bytes "frank",
                Time := bytes "10/Oct/2000:13:55:36 -0700",
                Request := some (bytes "GET", bytes "/apache_pb.gif", bytes "HTTP/1.0"),
                Status := 200, Bytes := 2326, Referer := none,
                UserAgent := bytes "Mozilla/4.08", XForwardedFor := [], ResponseTime := 0 },
         none) :=
  (referer_soft_failure textLib { fields1 with referer := bytes "not a url" } values1
    (bytes "not a url") []
    (by
      intro j hj
      interval_cases j <;> exact ⟨by decide, by trivial⟩)
    (by decide) rfl).1

/-! ## The bytes field -/

theorem bytes_step (L : Lib) (sp : StepSpec L) (hsp : (allSteps L).get? 6 = some sp) :
    sp.lit = none ∧ sp.sep = bytes " " ∧ sp.lastField = true ∧
      sp.conv = fun b e =>
        match L.Atoi b with
        | .error err => .error (.lib err)
        | .ok n => .ok { e with Bytes := n } := by
  have h : (allSteps L).get? 6 = some
      { lit := none, sep := bytes " ", lastField := true,
        conv := fun b e =>
          match L.Atoi b with
          | .error err => .error (.lib err)
          | .ok n => .ok { e with Bytes := n } } := rfl
  rw [h] at hsp
  cases hsp
  exact ⟨rfl, rfl, rfl, rfl⟩

theorem Common_bytes (L : Lib) (f : Fields) (v : Values L) (b more : Str) (sepFound : Bool)
    (hok : ∀ j < 6, FieldOk L f v j) (hb : 32 ∉ b) :
    Common L (f.upTo 6 ++ (b ++ (if sepFound then bytes " " ++ more else [])))
      = match L.Atoi b with
        | .error err => (none, some (.lib err))
        | .ok n => (some { entryUpTo L f v 6 with Bytes := n }, none) := by
  obtain ⟨sp, hsp, -, -, -⟩ := step_shape L 6 (by omega)
  obtain ⟨hlit, hsep, hlast, hconv⟩ := bytes_step L sp hsp
  have hpre := upTo_run L f v 6 (by omega) hok (b ++ (if sepFound then bytes " " ++ more else []))
  have h7 : commonSteps L = (allSteps L).take (6 + 1) := rfl
  rw [Common_steps, newLex_eq_cur, h7, runSteps_take_succ _ 6 sp _ _ hsp hpre]
  simp only [runSteps]
  cases sepFound with
  | true =>
    have hf : FirstOcc b sp.sep := by
      rw [hsep]
      exact (firstOcc_single b 32).2 hb
    have hrun : runStep sp (cur (f.upTo 6) (b ++ (sp.sep ++ more)), entryUpTo L f v 6)
        = match sp.conv b (entryUpTo L f v 6) with
          | .error er => .error er
          | .ok e1 => .ok (cur (f.upTo 6 ++ (b ++ sp.sep)) more, e1) := by
      simp only [runStep, hlit, nextField_cur_ok (f.upTo 6) b sp.sep more hf]
    rw [hsep] at hrun
    simp only [if_true, hrun, hconv]
    cases L.Atoi b <;> rfl
  | false =>
    have hno : ¬ sp.sep <:+: b := by
      rw [hsep]
      exact fun hm => hb ((mem_of_singleton_isInfix 32 b).1 hm)
    have hrun : runStep sp (cur (f.upTo 6) b, entryUpTo L f v 6)
        = match sp.conv b (entryUpTo L f v 6) with
          | .error er => .error er
          | .ok e1 => .ok (cur (f.upTo 6) b, e1) := by
      simp only [runStep, hlit, nextField_cur_fail (f.upTo 6) b sp.sep hno, hlast, if_true]
      simp [cur]
    simp only [Bool.false_eq_true, if_false, List.append_nil, hrun, hconv]
    cases L.Atoi b <;> rfl

/-- C7. Bytes as final token. After six well-formed fields (host to status), let the
bytes text `b` contain no space. If `Atoi` gives `n` for `b`, `Common` returns no error
and an entry with `Bytes = n`, both when `b` is followed by a space and more text and
when `b` ends the line; if `Atoi` rejects `b`, `Common` returns that error and no entry
in both cases. -/
theorem bytes_final_token (L : Lib) (f : Fields) (v : Values L) (b : Str)
    (hok : ∀ j < 6, FieldOk L f v j) (hb : 32 ∉ b) :
    (∀ n, L.Atoi b = .ok n →
      (∀ more, Common L (f.upTo 6 ++ (b ++ (bytes " " ++ more)))
        = (some { Host := some v.host, User := f.user, Time := v.time,
                  Request := some v.request, Status := v.status, Bytes := n, Referer := none,
                  UserAgent := [], XForwardedFor := [], ResponseTime := 0 }, none)) ∧
      Common L (f.upTo 6 ++ b)
        = (some { Host := some v.host, User := f.user, Time := v.time,
                  Request := some v.request, Status := v.status, Bytes := n, Referer := none,
                  UserAgent := [], XForwardedFor := [], ResponseTime := 0 }, none)) ∧
    (∀ err, L.Atoi b = .error err →
      (∀ more, Common L (f.upTo 6 ++ (b ++ (bytes " " ++ more))) = (none, some (.lib err))) ∧
      Common L (f.upTo 6 ++ b) = (none, some (.lib err))) := by
  have h1 := fun more => Common_bytes L f v b more true hok hb
  have h2 := Common_bytes L f v b [] false hok hb
  simp only [if_true, Bool.false_eq_true, if_false, List.append_nil] at h1 h2
  constructor
  · intro n hn
    simp only [hn] at h1 h2
    exact ⟨h1, h2⟩
  · intro err he
    simp only [he] at h1 h2
    exact ⟨h1, h2⟩

set_option maxRecDepth 100000 in
/-- Witness of C7: the common-format part of the line of scenario 1, with the bytes
`2326` followed by more text and as the last token, and with the bytes `23x6`. -/
theorem bytes_final_token_witness :
    (Common textLib (fields1.upTo 6 ++ (bytes "2326" ++ (bytes " " ++ bytes "\"-\"")))
        = (some { Host := some (bytes "127.0.0.1"), User := bytes "frank",
                  Time := bytes "10/Oct/2000:13:55:36 -0700",
                  Request := some (bytes "GET", bytes "/apache_pb.gif", bytes "HTTP/1.0"),
                  Status := 200, Bytes := 2326, Referer := none, UserAgent := [],
                  XForwardedFor := [], ResponseTime := 0 }, none) ∧
      Common textLib (fields1.upTo 6 ++ bytes "2326")
        = (some { Host := some (bytes "127.0.0.1"), User := bytes "frank",
                  Time := bytes "10/Oct/2000:13:55:36 -0700",
                  Request := some (bytes "GET", bytes "/apache_pb.gif", bytes "HTTP/1.0"),
                  Status := 200, Bytes := 2326, Referer := none, UserAgent := [],
                  XForwardedFor := [], ResponseTime := 0 }, none)) ∧
    Common textLib (fields1.upTo 6 ++ bytes "23x6") = (none, some (.lib (bytes "23x6"))) :=
  ⟨⟨((bytes_final_token textLib fields1 values1 (bytes "2326")
        (fun j hj => fields1_ok j (by omega)) (by decide)).1 2326 rfl).1 (bytes "\"-\""),
      ((bytes_final_token textLib fields1 values1 (bytes "2326")
        (fun j hj => fields1_ok j (by omega)) (by decide)).1 2326 rfl).2⟩,
    ((bytes_final_token textLib fields1 values1 (bytes "23x6")
        (fun j hj => fields1_ok j (by omega)) (by decide)).2 (bytes "23x6") rfl).2⟩

/-! ## Fail-fast -/

theorem runSteps_error_iff {L : Lib} (xs : List (StepSpec L)) (st : Lex L × Entry L)
    (err : Error L.Err) : runSteps xs st = .error err ↔ FirstFailure xs st err := by
  induction xs generalizing st with
  | nil =>
    constructor
    · intro h
      simp [runSteps] at h
    · rintro ⟨k, sp, st1, hsp, -, -⟩
      simp at hsp
  | cons sp xs ih =>
    cases hs : runStep sp st with
    | error e =>
      simp only [runSteps, hs]
      constructor
      · intro h
        cases h
        exact ⟨0, sp, st, rfl, rfl, hs⟩
      · rintro ⟨k, sp1, st1, hsp, hpre, hfail⟩
        cases k with
        | zero =>
          simp only [List.get?_cons_zero, Option.some.injEq] at hsp
          subst hsp
          simp only [List.take_zero, runSteps, Except.ok.injEq] at hpre
          subst hpre
          rw [hs] at hfail
          exact hfail
        | succ k => simp [runSteps, hs] at hpre
    | ok st2 =>
      simp only [runSteps, hs]
      rw [ih st2]
      constructor
      · rintro ⟨k, sp1, st1, hsp, hpre, hfail⟩
        exact ⟨k + 1, sp1, st1, by simpa using hsp, by simpa [runSteps, hs] using hpre, hfail⟩
      · rintro ⟨k, sp1, st1, hsp, hpre, hfail⟩
        cases k with
        | zero =>
          simp only [List.get?_cons_zero, Option.some.injEq] at hsp
          subst hsp
          simp only [List.take_zero, runSteps, Except.ok.injEq] at hpre
          subst hpre
          rw [hs] at hfail
          cases hfail
        | succ k =>
          exact ⟨k, sp1, st1, by simpa using hsp, by simpa [runSteps, hs] using hpre, hfail⟩

theorem toResult_cases {L : Lib} (r : Except (Error L.Err) (Lex L × Entry L)) :
    (∃ e, toResult r = (some e, none)) ∨ (∃ err, toResult r = (none, some err)) := by
  cases r with
  | error err => exact Or.inr ⟨err, rfl⟩
  | ok st => exact Or.inl ⟨st.2, rfl⟩

theorem toResult_error_iff {L : Lib} (r : Except (Error L.Err) (Lex L × Entry L))
    (err : Error L.Err) : (toResult r).2 = some err ↔ r = .error err := by
  cases r with
  | error e => simp [toResult]
  | ok st => simp [toResult]

/-- C8. Fail-fast, no partial entry. On every line `Common` and `Combined` return either
an entry and no error, or an error and no entry; and an error `err` is returned exactly
when, running the steps of the grammar in left-to-right field order, some step fails
with `err` after all the steps before it have succeeded. -/
theorem fail_fast (L : Lib) (line : Str) :
    ((∃ e, Common L line = (some e, none)) ∨ (∃ err, Common L line = (none, some err))) ∧
    ((∃ e, Combined L line = (some e, none)) ∨ (∃ err, Combined L line = (none, some err))) ∧
    (∀ err, (Common L line).2 = some err
      ↔ FirstFailure (commonSteps L) (newLex line, Entry.zero L) err) ∧
    (∀ err, (Combined L line).2 = some err
      ↔ FirstFailure (allSteps L) (newLex line, Entry.zero L) err) := by
  refine ⟨?_, ?_, ?_, ?_⟩
  · rw [Common_steps]
    exact toResult_cases _
  · rw [Combined_steps]
    exact toResult_cases _
  · intro err
    rw [Common_steps, toResult_error_iff, runSteps_error_iff]
  · intro err
    rw [Combined_steps, toResult_error_iff, runSteps_error_iff]

/-! ## The user field -/

theorem runStep_conv {L : Lib} (sp : StepSpec L) (st st1 : Lex L × Entry L)
    (h : runStep sp st = .ok st1) : ∃ t, sp.conv t st.2 = .ok st1.2 := by
  unfold runStep at h
  simp only at h
  split at h
  · cases h
  · split at h
    · split at h
      · split at h
        · cases h
        · rename_i hc
          cases h
          exact ⟨_, hc⟩
      · cases h
    · split at h
      · cases h
      · rename_i hc
        cases h
        exact ⟨_, hc⟩

theorem runSteps_preserves {L : Lib} (P : Entry L → Prop) (xs : List (StepSpec L))
    (hP : ∀ sp ∈ xs, ∀ t e e1, sp.conv t e = .ok e1 → P e → P e1)
    (st st1 : Lex L × Entry L) (h : runSteps xs st = .ok st1) (h0 : P st.2) : P st1.2 := by
  induction xs generalizing st with
  | nil =>
    simp only [runSteps, Except.ok.injEq] at h
    subst h
    exact h0
  | cons sp xs ih =>
    cases hs : runStep sp st with
    | error e => simp [runSteps, hs] at h
    | ok st2 =>
      simp only [runSteps, hs] at h
      obtain ⟨t, ht⟩ := runStep_conv sp st st2 hs
      exact ih (fun sp1 h1 => hP sp1 (List.mem_cons_of_mem _ h1)) st2 h
        (hP sp (List.mem_cons_self _ _) t _ _ ht h0)

theorem runStep_inv {L : Lib} (sp : StepSpec L) (pre rest : Str) (e : Entry L)
    (st1 : Lex L × Entry L) (hlit : sp.lit = none) (hlast : sp.lastField = false)
    (h : runStep sp (cur pre rest, e) = .ok st1) :
    ∃ a r, rest = a ++ (sp.sep ++ r) ∧ FirstOcc a sp.sep ∧ sp.conv a e = .ok st1.2 ∧
      st1.1 = cur (pre ++ (a ++ sp.sep)) r := by
  by_cases hno : sp.sep <:+: rest
  · cases ho : indexOpt rest sp.sep with
    | none => exact absurd hno ((indexOpt_eq_none_iff _ _).1 ho)
    | some i =>
      obtain ⟨a, r, hs, -, hf⟩ := indexOpt_some_inv _ _ _ ho
      subst hs
      refine ⟨a, r, rfl, hf, ?_⟩
      simp only [runStep, hlit, nextField_cur_ok pre a sp.sep r hf] at h
      cases hc : sp.conv a e with
      | error er => simp [hc] at h
      | ok e1 =>
        simp only [hc, Except.ok.injEq] at h
        subst h
        exact ⟨rfl, rfl⟩
  · have hfail := runStep_fail sp pre rest e hlast hno
    simp only [hlit, litText, List.nil_append] at hfail
    rw [hfail] at h
    cases h

theorem tail_conv_user (L : Lib) :
    ∀ sp ∈ (allSteps L).drop 3, ∀ t e e1, sp.conv t e = .ok e1 → e1.User = e.User := by
  intro sp hsp t e e1 h
  simp only [allSteps, commonSteps, combinedSteps, List.cons_append, List.nil_append,
    List.drop_succ_cons, List.drop_zero, List.mem_cons, List.mem_singleton,
    List.not_mem_nil, or_false] at hsp
  rcases hsp with rfl | rfl | rfl | rfl | rfl | rfl
  all_goals simp only [timeStep, requestStep, statusStep, bytesStep, refererStep, agentStep] at h
  all_goals repeat' split at h
  all_goals cases h
  all_goals rfl

theorem first_three_fields (L : Lib) (tl : List (StepSpec L)) (line : Str)
    (st : Lex L × Entry L)
    (htl : ∀ sp ∈ tl, ∀ t e e1, sp.conv t e = .ok e1 → e1.User = e.User)
    (h : runSteps ((allSteps L).take 3 ++ tl) (cur [] line, Entry.zero L) = .ok st) :
    ∃ a b rest, line = a ++ bytes " " ++ b ++ bytes " " ++ st.2.User ++ bytes " " ++ rest ∧
      32 ∉ a ∧ 32 ∉ b ∧ 32 ∉ st.2.User := by
  rw [runSteps_append] at h
  cases h3 : runSteps ((allSteps L).take 3) (cur [] line, Entry.zero L) with
  | error er => simp [h3] at h
  | ok st3 =>
  simp only [h3] at h
  have hu := runSteps_preserves (fun e => e.User = st3.2.User) tl
    (fun sp hsp t e e1 hc he => (htl sp hsp t e e1 hc).trans he) st3 st h rfl
  simp only at hu
  rw [hu]
  have h3a : (allSteps L).take 3 = [hostStep L, identStep L, userStep L] := rfl
  rw [h3a] at h3
  simp only [runSteps] at h3
  cases hs0 : runStep (hostStep L) (cur [] line, Entry.zero L) with
  | error er => simp [hs0] at h3
  | ok st0 =>
  obtain ⟨l0, e0⟩ := st0
  rw [hs0] at h3
  simp only at h3
  obtain ⟨a, r0, hl0, hf0, -, hc0⟩ := runStep_inv _ _ _ _ _ rfl rfl hs0
  simp only at hc0
  cases hs1 : runStep (identStep L) (l0, e0) with
  | error er => simp [hs1] at h3
  | ok st1 =>
  obtain ⟨l1, e1⟩ := st1
  rw [hs1] at h3
  simp only at h3
  rw [hc0] at hs1
  obtain ⟨b, r1, hl1, hf1, -, hc1⟩ := runStep_inv _ _ _ _ _ rfl rfl hs1
  simp only at hc1
  cases hs2 : runStep (userStep L) (l1, e1) with
  | error er => simp [hs2] at h3
  | ok st2 =>
  obtain ⟨l2, e2⟩ := st2
  rw [hs2] at h3
  simp only [Except.ok.injEq] at h3
  subst h3
  rw [hc1] at hs2
  obtain ⟨u, r2, hl2, hf2, hconv2, -⟩ := runStep_inv _ _ _ _ _ rfl rfl hs2
  simp only [userStep, Except.ok.injEq] at hconv2
  have hu2 : e2.User = u := by rw [← hconv2]
  have hsp : ∀ x : Str, FirstOcc x (bytes " ") → 32 ∉ x := fun x hx => (firstOcc_single x 32).1 hx
  refine ⟨a, b, r2, ?_, hsp a hf0, hsp b hf1, ?_⟩
  · rw [hl0, hl1, hl2, hu2]
    simp [hostStep, identStep, userStep]
  · rw [hu2]
    exact hsp u hf2

/-- C9. User is stored verbatim: when `Common` or `Combined` succeeds on a line with
entry `e`, the line is `a`, a space, `b`, a space, `e.User`, a space and a remainder,
where none of `a`, `b` and `e.User` contains a space; that is, `e.User` is exactly the
text between the second and the third space of the line (so a user field `-` is stored
as `-`). -/
theorem user_verbatim (L : Lib) (line : Str) (e : Entry L)
    (h : Common L line = (some e, none) ∨ Combined L line = (some e, none)) :
    ∃ a b rest, line = a ++ bytes " " ++ b ++ bytes " " ++ e.User ++ bytes " " ++ rest ∧
      32 ∉ a ∧ 32 ∉ b ∧ 32 ∉ e.User := by
  rcases h with h | h
  · rw [Common_steps, newLex_eq_cur] at h
    cases hr : runSteps (commonSteps L) (cur [] line, Entry.zero L) with
    | error er => simp [hr, toResult] at h
    | ok st =>
      simp only [hr, toResult, Prod.mk.injEq, Option.some.injEq, and_true] at h
      subst h
      have hsplit : commonSteps L = (allSteps L).take 3 ++ ((allSteps L).drop 3).take 4 := rfl
      rw [hsplit] at hr
      exact first_three_fields L _ line st
        (fun sp hsp => tail_conv_user L sp (List.mem_of_mem_take hsp)) hr
  · rw [Combined_steps, newLex_eq_cur] at h
    cases hr : runSteps (allSteps L) (cur [] line, Entry.zero L) with
    | error er => simp [hr, toResult] at h
    | ok st =>
      simp only [hr, toResult, Prod.mk.injEq, Option.some.injEq, and_true] at h
      subst h
      have hsplit : allSteps L = (allSteps L).take 3 ++ (allSteps L).drop 3 := rfl
      rw [hsplit] at hr
      exact first_three_fields L _ line st (tail_conv_user L) hr

set_option maxRecDepth 100000 in
/-- Witness of C9: the line of scenario 1 with the user field `-`; the entry that
`Combined` returns has the user `-`. -/
theorem user_verbatim_witness :
    Combined textLib (({ fields1 with user := bytes "-" } : Fields).line ++ [])
      = (some (entryUpTo textLib { fields1 with user := bytes "-" } values1 9), none) ∧
    ∃ a b rest, ({ fields1 with user := bytes "-" } : Fields).line ++ []
        = a ++ bytes " " ++ b ++ bytes " " ++ bytes "-" ++ bytes " " ++ rest ∧
      32 ∉ a ∧ 32 ∉ b ∧ 32 ∉ bytes "-" :=
  have hok : ∀ j < 9, FieldOk textLib { fields1 with user := bytes "-" } values1 j := by
    intro j hj
    interval_cases j <;> exact ⟨by decide, by trivial⟩
  ⟨Combined_wellformed textLib _ values1 hok [],
    user_verbatim textLib _ (entryUpTo textLib { fields1 with user := bytes "-" } values1 9)
      (Or.inr (Combined_wellformed textLib _ values1 hok []))⟩

/-! ## The host field -/

/-- C11. Invalid host is a hard error decided first: on a line that consists of a text
`a` without a space, a space and any remainder, when `net.ParseIP` rejects `a`, both
`Common` and `Combined` return no entry and the "cannot parse IP" error carrying `a`. -/
theorem invalid_host (L : Lib) (a rest : Str) (ha : 32 ∉ a) (hip : L.ParseIP a = none) :
    Common L (a ++ (bytes " " ++ rest)) = (none, some (.cannotParseIP a)) ∧
    Combined L (a ++ (bytes " " ++ rest)) = (none, some (.cannotParseIP a)) := by
  have hf : FirstOcc a (hostStep L).sep := (firstOcc_single a 32).2 ha
  have hfail : runStep (hostStep L) (cur [] (a ++ (bytes " " ++ rest)), Entry.zero L)
      = .error (.cannotParseIP a) := by
    have hn := nextField_cur_ok (L := L) [] a (hostStep L).sep rest hf
    have hsep : (hostStep L).sep = bytes " " := rfl
    rw [hsep] at hn
    simp only [runStep, hostStep, hn, hip]
  constructor
  · rw [Common_steps, newLex_eq_cur,
      runSteps_fail_at (commonSteps L) 0 (hostStep L) _ _ _ rfl rfl hfail]
    rfl
  · rw [Combined_steps, newLex_eq_cur,
      runSteps_fail_at (allSteps L) 0 (hostStep L) _ _ _ rfl rfl hfail]
    rfl

set_option maxRecDepth 100000 in
/-- Witness of C11: the line of scenario 1 with the host `example.org`. -/
theorem invalid_host_witness :
    Common textLib (bytes "example.org" ++ (bytes " " ++ bytes "- frank [10/Oct/2000:13:55:36 -0700] \"GET / HTTP/1.0\" 200 2326"))
      = (none, some (.cannotParseIP (bytes "example.org"))) ∧
    Combined textLib (bytes "example.org" ++ (bytes " " ++ bytes "- frank [10/Oct/2000:13:55:36 -0700] \"GET / HTTP/1.0\" 200 2326"))
      = (none, some (.cannotParseIP (bytes "example.org"))) :=
  invalid_host textLib (bytes "example.org")
    (bytes "- frank [10/Oct/2000:13:55:36 -0700] \"GET / HTTP/1.0\" 200 2326") (by decide) rfl

/-! ## The status field -/

theorem tail_conv_status (L : Lib) :
    ∀ sp ∈ (allSteps L).drop 6, ∀ t e e1, sp.conv t e = .ok e1 → e1.Status = e.Status := by
  intro sp hsp t e e1 h
  simp only [allSteps, commonSteps, combinedSteps, List.cons_append, List.nil_append,
    List.drop_succ_cons, List.drop_zero, List.mem_cons, List.mem_singleton,
    List.not_mem_nil, or_false] at hsp
  rcases hsp with rfl | rfl | rfl
  all_goals simp only [bytesStep, refererStep, agentStep] at h
  all_goals repeat' split at h
  all_goals cases h
  all_goals rfl

theorem fieldOk_of_status (L : Lib) (f : Fields) (v : Values L) (n : Int)
    (hok : ∀ j < 5, FieldOk L f v j) (hsp : 32 ∉ f.status) (hn : L.Atoi f.status = .ok n) :
    ∀ j < 6, FieldOk L f { v with status := n } j := by
  intro j hj
  by_cases h5 : j = 5
  · subst h5
    exact ⟨fun hm => hsp ((mem_of_singleton_isInfix 32 _).1 hm), hn⟩
  · have := hok j (by omega)
    interval_cases j <;> first | exact this | exact absurd rfl h5

theorem status_after_six (L : Lib) (f : Fields) (v : Values L) (xs : List (StepSpec L))
    (rest : Str) (st : Lex L × Entry L) (hok : ∀ j < 6, FieldOk L f v j)
    (hxs : ∀ sp ∈ xs, ∀ t e e1, sp.conv t e = .ok e1 → e1.Status = e.Status)
    (h : runSteps ((allSteps L).take 6 ++ xs) (cur [] (f.upTo 6 ++ rest), Entry.zero L)
      = .ok st) :
    st.2.Status = v.status := by
  rw [runSteps_append, upTo_run L f v 6 (by omega) hok rest] at h
  simp only at h
  have := runSteps_preserves (fun e => e.Status = v.status) xs
    (fun sp hsp t e e1 hc he => (hxs sp hsp t e e1 hc).trans he) _ st h rfl
  exact this

/-- C12. Non-numeric status is a hard error. After five well-formed fields (host to
request line), let the status token, the text up to the next space, contain no space.
If `Atoi` rejects it, `Common` and `Combined` return no entry and that conversion error,
whatever follows. If `Atoi` gives `n` for it, every entry that `Common` or `Combined`
returns has `Status = n`, and `Common` does return one when a well-formed bytes text
follows. -/
theorem status_field (L : Lib) (f : Fields) (v : Values L)
    (hok : ∀ j < 5, FieldOk L f v j) (hsp : 32 ∉ f.status) :
    (∀ err, L.Atoi f.status = .error err → ∀ rest,
      Common L (f.upTo 6 ++ rest) = (none, some (.lib err)) ∧
      Combined L (f.upTo 6 ++ rest) = (none, some (.lib err))) ∧
    (∀ n, L.Atoi f.status = .ok n →
      (∀ rest e, Common L (f.upTo 6 ++ rest) = (some e, none)
          ∨ Combined L (f.upTo 6 ++ rest) = (some e, none) → e.Status = n) ∧
      (∀ b m, 32 ∉ b → L.Atoi b = .ok m →
        Common L (f.upTo 6 ++ b)
          = (some { Host := some v.host, User := f.user, Time := v.time,
                    Request := some v.request, Status := n, Bytes := m, Referer := none,
                    UserAgent := [], XForwardedFor := [], ResponseTime := 0 }, none))) := by
  have hf : FirstOcc f.status (statusStep L).sep :=
    (firstOcc_single f.status 32).2 hsp
  refine ⟨?_, ?_⟩
  · intro err herr rest
    have hpre := upTo_run L f v 5 (by omega) hok (f.seg 5 ++ rest)
    have hline : f.upTo 6 ++ rest = f.upTo 5 ++ (f.seg 5 ++ rest) := by
      simp [Fields.upTo]
    have hfail : runStep (statusStep L) (cur (f.upTo 5) (f.seg 5 ++ rest), entryUpTo L f v 5)
        = .error (.lib err) := by
      have hn := nextField_cur_ok (L := L) (f.upTo 5) f.status (statusStep L).sep rest hf
      have hseg : f.seg 5 ++ rest = f.status ++ ((statusStep L).sep ++ rest) := by
        simp [Fields.seg, Fields.text, fieldLit, fieldSep, statusStep]
      rw [hseg]
      simp only [runStep, statusStep] at hn ⊢
      simp only [hn, herr]
    rw [hline]
    constructor
    · rw [Common_steps, newLex_eq_cur,
        runSteps_fail_at (commonSteps L) 5 (statusStep L) _ _ _ rfl hpre hfail]
      rfl
    · rw [Combined_steps, newLex_eq_cur,
        runSteps_fail_at (allSteps L) 5 (statusStep L) _ _ _ rfl hpre hfail]
      rfl
  · intro n hn
    have hok6 := fieldOk_of_status L f v n hok hsp hn
    refine ⟨?_, ?_⟩
    · intro rest e h
      rcases h with h | h
      · rw [Common_steps, newLex_eq_cur] at h
        cases hr : runSteps (commonSteps L) (cur [] (f.upTo 6 ++ rest), Entry.zero L) with
        | error er => simp [hr, toResult] at h
        | ok st =>
          simp only [hr, toResult, Prod.mk.injEq, Option.some.injEq, and_true] at h
          subst h
          have hsplit : commonSteps L = (allSteps L).take 6 ++ ((allSteps L).drop 6).take 1 :=
            rfl
          rw [hsplit] at hr
          exact status_after_six L f { v with status := n } _ rest st hok6
            (fun sp hsp => tail_conv_status L sp (List.mem_of_mem_take hsp)) hr
      · rw [Combined_steps, newLex_eq_cur] at h
        cases hr : runSteps (allSteps L) (cur [] (f.upTo 6 ++ rest), Entry.zero L) with
        | error er => simp [hr, toResult] at h
        | ok st =>
          simp only [hr, toResult, Prod.mk.injEq, Option.some.injEq, and_true] at h
          subst h
          have hsplit : allSteps L = (allSteps L).take 6 ++ (allSteps L).drop 6 := rfl
          rw [hsplit] at hr
          exact status_after_six L f { v with status := n } _ rest st hok6
            (tail_conv_status L) hr
    · intro b m hb hm
      have h := Common_bytes L f { v with status := n } b [] false hok6 hb
      simp only [Bool.false_eq_true, if_false, List.append_nil, hm] at h
      exact h

set_option maxRecDepth 100000 in
/-- Witness of C12: the line of scenario 1 with the status `abc` (concrete scenario 2),
and with the status `200` followed by the bytes `2326`. -/
theorem status_field_witness :
    (Common textLib (({ fields1 with status := bytes "abc" } : Fields).upTo 6
        ++ bytes "2326 \"-\" \"Mozilla/4.08\"") = (none, some (.lib (bytes "abc"))) ∧
      Combined textLib (({ fields1 with status := bytes "abc" } : Fields).upTo 6
        ++ bytes "2326 \"-\" \"Mozilla/4.08\"") = (none, some (.lib (bytes "abc")))) ∧
    Common textLib (fields1.upTo 6 ++ bytes "2326")
      = (some { Host := some (bytes "127.0.0.1"), User := bytes "frank",
                Time := bytes "10/Oct/2000:13:55:36 -0700",
                Request := some (bytes "GET", bytes "/apache_pb.gif", bytes "HTTP/1.0"),
                Status := 200, Bytes := 2326, Referer := none, UserAgent := [],
                XForwardedFor := [], ResponseTime := 0 }, none) :=
  ⟨(status_field textLib { fields1 with status := bytes "abc" } values1
      (by
        intro j hj
        interval_cases j <;> exact ⟨by decide, by trivial⟩)
      (by decide)).1 (bytes "abc") rfl (bytes "2326 \"-\" \"Mozilla/4.08\""),
    ((status_field textLib fields1 values1 (fun j hj => fields1_ok j (by omega))
      (by decide)).2 200 rfl).2 (bytes "2326") 2326 (by decide) rfl⟩

/-! ## The referer placeholder and the user placeholder -/

/-- C13. Referer `-` means absent. On a line whose nine fields are well-formed (followed
by any text): when the referer text is exactly `-`, `Combined` returns no error and an
entry without referer, whatever the URL parser would give for `-`; when the referer text
is not `-` and the URL parser accepts it, the referer of the entry is the parsed URL. -/
theorem referer_dash_absent (L : Lib) (f : Fields) (v : Values L) (t : Str)
    (hok : ∀ j < 9, FieldOk L f v j) :
    (f.referer = bytes "-" →
      Combined L (f.line ++ t)
        = (some { Host := some v.host, User := f.user, Time := v.time,
                  Request := some v.request, Status := v.status, Bytes := v.bytes,
                  Referer := none, UserAgent := f.agent, XForwardedFor := [],
                  ResponseTime := 0 }, none)) ∧
    (∀ u, f.referer ≠ bytes "-" → L.ParseRequestURI f.referer = .ok u →
      Combined L (f.line ++ t)
        = (some { Host := some v.host, User := f.user, Time := v.time,
                  Request := some v.request, Status := v.status, Bytes := v.bytes,
                  Referer := some u, UserAgent := f.agent, XForwardedFor := [],
                  ResponseTime := 0 }, none)) := by
  constructor
  · intro hd
    rw [Combined_wellformed L f v hok t]
    simp only [entryUpTo, setField, hd, if_true, Entry.zero]
  · intro u hd hu
    rw [Combined_wellformed L f v hok t]
    simp only [entryUpTo, setField, hd, if_false, hu, Entry.zero]

set_option maxRecDepth 100000 in
/-- Witness of C13: the line of scenario 1 with the referer `-`, and the line itself. -/
theorem referer_dash_absent_witness :
    Combined textLib (({ fields1 with referer := bytes "-" } : Fields).line ++ [])
      = (some { Host := some (bytes "127.0.0.1"), User := bytes "frank",
                Time := bytes "10/Oct/2000:13:55:36 -0700",
                Request := some (bytes "GET", bytes "/apache_pb.gif", bytes "HTTP/1.0"),
                Status := 200, Bytes := 2326, Referer := none,
                UserAgent := bytes "Mozilla/4.08", XForwardedFor := [], ResponseTime := 0 },
         none) ∧
    Combined textLib (fields1.line ++ [])
      = (some { Host := some (bytes "127.0.0.1"), User := bytes "frank",
                Time := bytes "10/Oct/2000:13:55:36 -0700",
                Request := some (bytes "GET", bytes "/apache_pb.gif", bytes "HTTP/1.0"),
                Status := 200, Bytes := 2326,
                Referer := some (bytes "http://www.example.com/start.html"),
                UserAgent := bytes "Mozilla/4.08", XForwardedFor := [], ResponseTime := 0 },
         none) :=
  ⟨(referer_dash_absent textLib { fields1 with referer := bytes "-" } values1 []
      (by
        intro j hj
        interval_cases j <;> exact ⟨by decide, by trivial⟩)).1 rfl,
    (referer_dash_absent textLib fields1 values1 [] fields1_ok).2
      (bytes "http://www.example.com/start.html") (by decide) rfl⟩

/-- C14. On a line whose nine fields are well-formed and whose user field is `-`,
`Combined` succeeds and the user of the entry is the text `-`, not the empty string; so
does `Common` on the common-format part of the line. -/
theorem anonymous_user_kept (L : Lib) (f : Fields) (v : Values L) (t : Str)
    (hok : ∀ j < 9, FieldOk L f v j) (hu : f.user = bytes "-") :
    (∃ e, Combined L (f.line ++ t) = (some e, none) ∧ e.User = bytes "-" ∧ e.User ≠ []) ∧
    (∃ e, Common L (f.upTo 7 ++ t) = (some e, none) ∧ e.User = bytes "-" ∧ e.User ≠ []) := by
  have h9 : (entryUpTo L f v 9).User = bytes "-" := by
    simp only [entryUpTo, setField, Entry.zero, hu]
    split <;> [rfl; split <;> rfl]
  have h7 : (entryUpTo L f v 7).User = bytes "-" := by
    simp only [entryUpTo, setField, Entry.zero, hu]
  have hne : bytes "-" ≠ [] := by decide
  exact ⟨⟨_, Combined_wellformed L f v hok t, h9, by rw [h9]; exact hne⟩,
    ⟨_, Common_wellformed L f v (fun j hj => hok j (by omega)) t, h7, by rw [h7]; exact hne⟩⟩

set_option maxRecDepth 100000 in
/-- Witness of C14: the line of scenario 1 with the user field `-`. -/
theorem anonymous_user_kept_witness :
    (∃ e, Combined textLib (({ fields1 with user := bytes "-" } : Fields).line ++ [])
        = (some e, none) ∧ e.User = bytes "-" ∧ e.User ≠ []) ∧
    (∃ e, Common textLib (({ fields1 with user := bytes "-" } : Fields).upTo 7 ++ [])
        = (some e, none) ∧ e.User = bytes "-" ∧ e.User ≠ []) :=
  anonymous_user_kept textLib { fields1 with user := bytes "-" } values1 []
    (by
      intro j hj
      interval_cases j <;> exact ⟨by decide, by trivial⟩) rfl

/-! ## `span` and `match` -/

theorem indexOpt_of_first (t m : Str) (i : Nat) (h1 : m <+: t.drop i)
    (h2 : ∀ j < i, ¬ m <+: t.drop j) : indexOpt t m = some i := by
  induction t generalizing i with
  | nil =>
    cases i with
    | zero => exact indexOpt_of_isPrefix _ _ h1
    | succ i =>
      exfalso
      apply h2 0 (by omega)
      simpa using h1
  | cons c t ih =>
    cases i with
    | zero => exact indexOpt_of_isPrefix _ _ h1
    | succ i =>
      have h0 : ¬ m <+: c :: t := by simpa using h2 0 (by omega)
      rw [indexOpt_cons_of_not _ _ _ h0,
        ih i (by simpa using h1) (fun j hj => by simpa using h2 (j + 1) (by omega))]
      rfl

theorem first_of_indexOpt (t m : Str) (i : Nat) (h : indexOpt t m = some i) :
    m <+: t.drop i ∧ ∀ j < i, ¬ m <+: t.drop j := by
  induction t generalizing i with
  | nil =>
    simp only [indexOpt, isPrefixOf_eq_true_iff] at h
    split at h
    · rename_i hm
      cases h
      exact ⟨by simpa using hm, fun j hj => absurd hj (by omega)⟩
    · cases h
  | cons c t ih =>
    by_cases hp : m <+: c :: t
    · rw [indexOpt_of_isPrefix _ _ hp] at h
      cases h
      exact ⟨by simpa using hp, fun j hj => absurd hj (by omega)⟩
    · rw [indexOpt_cons_of_not _ _ _ hp] at h
      cases hi : indexOpt t m with
      | none => simp [hi] at h
      | some k =>
        simp only [hi, Option.map_some', Option.some.injEq] at h
        subst h
        obtain ⟨h1, h2⟩ := ih k hi
        refine ⟨by simpa using h1, ?_⟩
        intro j hj
        cases j with
        | zero => simpa using hp
        | succ j => simpa using h2 j (by omega)

theorem slice_eq_take_drop (s : Str) (p i : Nat) : slice s p (p + i) = (s.drop p).take i := by
  simp [slice, List.drop_take]

/-- C15. `span` extracts up to the first occurrence of the delimiter. For every cursor
and delimiter `m`: if `m` occurs in `s[p:]` at byte index `i` and at no smaller index,
`span` returns `(s[p:p+i], true)` and moves the offset to `p' = p + i + len(m)`, with
`s[p:p'] = s[p:p+i] ++ m`; such an index exists whenever `m` occurs in `s[p:]`; and
if `m` does not occur in `s[p:]`, `span` returns `("", false)` and leaves the cursor
unchanged. -/
theorem span_first_occurrence {E : Type} (l : lex E) (m : Str) :
    (∀ i, m <+: (l.s.drop l.p).drop i → (∀ j < i, ¬ m <+: (l.s.drop l.p).drop j) →
      l.span m = ((slice l.s l.p (l.p + i), true), { l with p := l.p + (i + m.length) }) ∧
      slice l.s l.p (l.p + i) = (l.s.drop l.p).take i ∧
      slice l.s l.p (l.p + (i + m.length)) = slice l.s l.p (l.p + i) ++ m) ∧
    (m <:+: l.s.drop l.p →
      ∃ i, m <+: (l.s.drop l.p).drop i ∧ ∀ j < i, ¬ m <+: (l.s.drop l.p).drop j) ∧
    (¬ m <:+: l.s.drop l.p → l.span m = (([], false), l)) := by
  refine ⟨?_, ?_, ?_⟩
  · intro i h1 h2
    have ho := indexOpt_of_first _ _ i h1 h2
    refine ⟨?_, slice_eq_take_drop _ _ _, ?_⟩
    · simp [lex.span, Index, ho]
    · obtain ⟨a, r, hs, hl, -⟩ := indexOpt_some_inv _ _ _ ho
      rw [slice_eq_take_drop, slice_eq_take_drop, hs, ← hl]
      simp [List.take_append]
  · intro hocc
    cases ho : indexOpt (l.s.drop l.p) m with
    | none => exact absurd hocc ((indexOpt_eq_none_iff _ _).1 ho)
    | some i => exact ⟨i, first_of_indexOpt _ _ i ho⟩
  · intro hno
    have := (Index_neg_iff _ m).2 hno
    simp [lex.span, this]

/-- Witness of C15: on `ab] cd] e` from offset 1 the delimiter `] ` first occurs at
index 1 of `b] cd] e`; `span` returns `b` and moves the offset to 4. -/
theorem span_first_occurrence_witness :
    (⟨bytes "ab] cd] e", 1, 0, none⟩ : lex Unit).span (bytes "] ")
      = ((slice (bytes "ab] cd] e") 1 (1 + 1), true), ⟨bytes "ab] cd] e", 1 + (1 + 2), 0, none⟩) ∧
    slice (bytes "ab] cd] e") 1 (1 + 1) = ((bytes "ab] cd] e").drop 1).take 1 ∧
    slice (bytes "ab] cd] e") 1 (1 + (1 + 2)) = slice (bytes "ab] cd] e") 1 (1 + 1) ++ bytes "] " :=
  (span_first_occurrence (⟨bytes "ab] cd] e", 1, 0, none⟩ : lex Unit) (bytes "] ")).1 1
    (by decide) (by decide)

/-- C16. `match` is all-or-nothing. For every cursor and literal `m`: if `s[p:]` starts
with `m`, `match` returns true and only moves the offset, to `p + len(m)`; otherwise it
returns false and leaves the cursor unchanged; so it returns true exactly when `s[p:]`
starts with `m`. -/
theorem match_all_or_nothing {E : Type} (l : lex E) (m : Str) :
    (m <+: l.s.drop l.p → l.match_ m = (true, { l with p := l.p + m.length })) ∧
    (¬ m <+: l.s.drop l.p → l.match_ m = (false, l)) ∧
    ((l.match_ m).1 = true ↔ m <+: l.s.drop l.p) := by
  by_cases h : m <+: l.s.drop l.p
  · have hp : HasPrefix (l.s.drop l.p) m = true := (isPrefixOf_eq_true_iff _ _).2 h
    refine ⟨fun _ => ?_, fun hn => absurd h hn, ?_⟩
    · simp [lex.match_, hp]
    · simp [lex.match_, hp, h]
  · have hp : HasPrefix (l.s.drop l.p) m = false := by
      cases hb : HasPrefix (l.s.drop l.p) m with
      | false => rfl
      | true => exact absurd ((isPrefixOf_eq_true_iff _ _).1 hb) h
    refine ⟨fun hn => absurd hn h, fun _ => ?_, ?_⟩
    · simp [lex.match_, hp]
    · simp [lex.match_, hp, h]

/-- Witness of C16: on `ab[cd` from offset 2, `match` with `[` succeeds and moves the
offset to 3; with `"` it fails and leaves the cursor as it is. -/
theorem match_all_or_nothing_witness :
    (⟨bytes "ab[cd", 2, 0, none⟩ : lex Unit).match_ (bytes "[")
      = (true, ⟨bytes "ab[cd", 2 + 1, 0, none⟩) ∧
    (⟨bytes "ab[cd", 2, 0, none⟩ : lex Unit).match_ (bytes "\"")
      = (false, ⟨bytes "ab[cd", 2, 0, none⟩) :=
  ⟨(match_all_or_nothing (⟨bytes "ab[cd", 2, 0, none⟩ : lex Unit) (bytes "[")).1 (by decide),
    (match_all_or_nothing (⟨bytes "ab[cd", 2, 0, none⟩ : lex Unit) (bytes "\"")).2.1
      (by decide)⟩

/-! ## Line and column -/

theorem lastIndexOpt_append_newline (x : Str) :
    lastIndexOpt (x ++ [10]) [10] = some x.length := by
  induction x with
  | nil => simp [lastIndexOpt]
  | cons c x ih =>
    have h1 : lastIndexOpt (c :: (x ++ [10])) [10]
        = match lastIndexOpt (x ++ [10]) [10] with
          | some i => some (i + 1)
          | none => if List.isPrefixOf [10] (c :: (x ++ [10])) then some 0 else none := by
      rw [lastIndexOpt]
    rw [List.cons_append, h1, ih]
    rfl

theorem column_of_taken (x : Str) :
    (x.length : Int) - LastIndex x [10]
      = 1 + ((x.reverse.takeWhile (fun c => c != 10)).length : Nat) := by
  induction x using List.reverseRecOn with
  | nil => simp [LastIndex, lastIndexOpt]
  | append_singleton y b ih =>
    by_cases hb : b = 10
    · subst hb
      simp [LastIndex, lastIndexOpt_append_newline]
    · have hl : LastIndex (y ++ [b]) [10] = LastIndex y [10] := by
        simp only [LastIndex, lastIndexOpt_append_byte y b hb]
      rw [hl]
      simp only [List.length_append, List.length_singleton, List.reverse_append,
        List.reverse_singleton, List.singleton_append]
      have hb2 : (b != 10) = true := by simpa using hb
      rw [List.takeWhile_cons]
      simp only [hb2, if_true, List.length_cons]
      push_cast
      push_cast at ih
      linarith

theorem takeWhile_all_of_not_mem (x : Str) (h : 10 ∉ x) :
    x.reverse.takeWhile (fun c => c != 10) = x.reverse := by
  rw [List.takeWhile_eq_self_iff]
  intro c hc
  have hcx : c ∈ x := List.mem_reverse.1 hc
  have : c ≠ 10 := fun h10 => h (h10 ▸ hcx)
  simpa using this

/-- C17. 1-based line and column. For every cursor with `p ≤ len(s)`: `LineNumber` is
1 plus the number of newline bytes in `s[:p]`; `ColumnNumber` is 1 plus the number of
bytes of `s[:p]` after its last newline, which is 1 plus `p` when `s[:p]` has no newline;
both are at least 1; and a fresh cursor reports line 1, column 1. -/
theorem line_and_column {E : Type} (l : lex E) (hp : l.p ≤ l.s.length) :
    l.LineNumber = 1 + (((l.s.take l.p).count 10 : Nat) : Int) ∧
    l.ColumnNumber
      = 1 + ((((l.s.take l.p).reverse.takeWhile (fun c => c != 10)).length : Nat) : Int) ∧
    (10 ∉ l.s.take l.p → l.ColumnNumber = 1 + (l.p : Int)) ∧
    1 ≤ l.LineNumber ∧ 1 ≤ l.ColumnNumber ∧
    (newLex l.s : lex E).LineNumber = 1 ∧ (newLex l.s : lex E).ColumnNumber = 1 := by
  have hlen : (l.s.take l.p).length = l.p := by
    rw [List.length_take]
    omega
  have hcol : l.ColumnNumber
      = 1 + ((((l.s.take l.p).reverse.takeWhile (fun c => c != 10)).length : Nat) : Int) := by
    rw [← column_of_taken, hlen]
    rfl
  refine ⟨rfl, hcol, ?_, ?_, ?_, ?_, ?_⟩
  · intro hno
    rw [hcol, takeWhile_all_of_not_mem _ hno, List.length_reverse, hlen]
  · simp only [lex.LineNumber]
    omega
  · rw [hcol]
    omega
  · simp [lex.LineNumber, newLex, Count]
  · simp [lex.ColumnNumber, newLex, LastIndex, lastIndexOpt]

/-- Witness of C17: on the two lines `ab` and `cde` with the cursor after `d`, the line
is 2 and the column is 3. -/
theorem line_and_column_witness :
    (⟨[97, 98, 10, 99, 100, 101], 5, 0, none⟩ : lex Unit).LineNumber = 2 ∧
    (⟨[97, 98, 10, 99, 100, 101], 5, 0, none⟩ : lex Unit).ColumnNumber = 3 := by
  have h := line_and_column (⟨[97, 98, 10, 99, 100, 101], 5, 0, none⟩ : lex Unit) (by decide)
  exact ⟨h.1.trans (by decide), h.2.1.trans (by decide)⟩

/-! ## Concrete scenario 3 -/

/-- Counterexample to C18 as stated: on the line of scenario 1 cut after the timestamp
text, where `[` is at column 19, the error that `Combined` and `Common` return carries
no column at all. -/
theorem scenario3_error_has_no_column :
    (¬ ∃ err col, Combined textLib (bytes "127.0.0.1 - frank [10/Oct/2000:13:55:36 -0700")
        = (none, some err) ∧ Error.column err = some col) ∧
    (¬ ∃ err col, Common textLib (bytes "127.0.0.1 - frank [10/Oct/2000:13:55:36 -0700")
        = (none, some err) ∧ Error.column err = some col) := by
  have h1 : Combined textLib (bytes "127.0.0.1 - frank [10/Oct/2000:13:55:36 -0700")
      = (none, some (.missingSeparator (bytes "10/Oct/2000:13:55:36 -0700") (bytes "] ")
          (bytes "127.0.0.1 - frank [10/Oct/2000:13:55:36 -0700"))) := rfl
  have h2 : Common textLib (bytes "127.0.0.1 - frank [10/Oct/2000:13:55:36 -0700")
      = (none, some (.missingSeparator (bytes "10/Oct/2000:13:55:36 -0700") (bytes "] ")
          (bytes "127.0.0.1 - frank [10/Oct/2000:13:55:36 -0700"))) := rfl
  constructor
  · rintro ⟨err, col, he, hc⟩
    rw [h1] at he
    cases he
    cases hc
  · rintro ⟨err, col, he, hc⟩
    rw [h2] at he
    cases he
    cases hc

/-- C18 (amended). Concrete scenario 3: on a line whose host, identity and user fields
are well-formed and are followed by `[` and a text without `] `, `Common` and `Combined`
return no entry and the missing-separator error, which carries the text after the `[`,
the delimiter `] ` and the whole line, and no column. -/
theorem scenario3_missing_bracket (L : Lib) (f : Fields) (v : Values L) (rest : Str)
    (hok : ∀ j < 3, FieldOk L f v j) (hno : ¬ bytes "] " <:+: rest) :
    Common L (f.upTo 3 ++ (bytes "[" ++ rest))
      = (none, some (.missingSeparator rest (bytes "] ") (f.upTo 3 ++ (bytes "[" ++ rest)))) ∧
    Combined L (f.upTo 3 ++ (bytes "[" ++ rest))
      = (none, some (.missingSeparator rest (bytes "] ") (f.upTo 3 ++ (bytes "[" ++ rest)))) ∧
    Error.column (.missingSeparator rest (bytes "] ") (f.upTo 3 ++ (bytes "[" ++ rest))
      : Error L.Err) = none := by
  have hpre := upTo_run L f v 3 (by omega) hok (bytes "[" ++ rest)
  have hfail := runStep_fail (timeStep L) (f.upTo 3) rest (entryUpTo L f v 3) rfl hno
  have hlit : litText (timeStep L).lit = bytes "[" := rfl
  have hsep : (timeStep L).sep = bytes "] " := rfl
  rw [hlit, hsep] at hfail
  refine ⟨?_, ?_, rfl⟩
  · have h3 : (commonSteps L).take 3 = (allSteps L).take 3 := rfl
    rw [Common_steps, newLex_eq_cur,
      runSteps_fail_at (commonSteps L) 3 (timeStep L) _ _ _ rfl (h3 ▸ hpre) hfail]
    rfl
  · rw [Combined_steps, newLex_eq_cur,
      runSteps_fail_at (allSteps L) 3 (timeStep L) _ _ _ rfl hpre hfail]
    rfl

set_option maxRecDepth 100000 in
/-- Witness of C18 (amended): the line of scenario 1 cut after the timestamp text. -/
theorem scenario3_missing_bracket_witness :
    Common textLib (fields1.upTo 3 ++ (bytes "[" ++ bytes "10/Oct/2000:13:55:36 -0700"))
      = (none, some (.missingSeparator (bytes "10/Oct/2000:13:55:36 -0700") (bytes "] ")
          (fields1.upTo 3 ++ (bytes "[" ++ bytes "10/Oct/2000:13:55:36 -0700")))) ∧
    Combined textLib (fields1.upTo 3 ++ (bytes "[" ++ bytes "10/Oct/2000:13:55:36 -0700"))
      = (none, some (.missingSeparator (bytes "10/Oct/2000:13:55:36 -0700") (bytes "] ")
          (fields1.upTo 3 ++ (bytes "[" ++ bytes "10/Oct/2000:13:55:36 -0700")))) :=
  have h := scenario3_missing_bracket textLib fields1 values1
    (bytes "10/Oct/2000:13:55:36 -0700") (fun j hj => fields1_ok j (by omega)) (by decide)
  ⟨h.1, h.2.1⟩

/-! ## The status tallies of `main` -/

theorem tally_classes {F : Type} (fadd : F → F → F) (s : Int) (rt : F) (c : Tally F) :
    ((tallyStatus fadd s rt c).counter300Lines = c.counter300Lines + 1 ↔ 300 ≤ s ∧ s ≤ 398) ∧
    ((tallyStatus fadd s rt c).counter400Lines = c.counter400Lines + 1 ↔ 400 ≤ s ∧ s ≤ 498) ∧
    ((tallyStatus fadd s rt c).counterErrorLines = c.counterErrorLines + 1
      ↔ 500 ≤ s ∧ s ≤ 598) := by
  unfold tallyStatus
  refine ⟨?_, ?_, ?_⟩
  all_goals
    split_ifs <;> constructor <;> intro h <;> (try dsimp only at h ⊢) <;> omega

/-- C20. Entries with status 399, 499 and 599 are tallied in no class: the `switch` of
`main` leaves every counter as it is, while status 398, 498 and 598 increment the 3xx,
4xx and 5xx counters. -/
theorem tally_skips_last_of_class {F : Type} (fadd : F → F → F) (rt : F) (c : Tally F) :
    tallyStatus fadd 399 rt c = c ∧ tallyStatus fadd 499 rt c = c ∧
    tallyStatus fadd 599 rt c = c ∧
    (tallyStatus fadd 398 rt c).counter300Lines = c.counter300Lines + 1 ∧
    (tallyStatus fadd 498 rt c).counter400Lines = c.counter400Lines + 1 ∧
    (tallyStatus fadd 598 rt c).counterErrorLines = c.counterErrorLines + 1 := by
  refine ⟨?_, ?_, ?_, ?_, ?_, ?_⟩ <;> simp [tallyStatus]

/-! ## Lines on which `Combined` succeeds -/

theorem firstOcc_not_isInfix (a m : Str) (hm : m ≠ []) (h : FirstOcc a m) : ¬ m <:+: a := by
  induction a with
  | nil =>
    intro hi
    exact hm (List.infix_nil.1 hi)
  | cons c a ih =>
    obtain ⟨h1, h2⟩ := h
    rw [List.infix_cons_iff, not_or]
    exact ⟨fun hp => h1 (hp.trans (List.prefix_append _ _)), ih h2⟩

theorem expect_cur_inv {L : Lib} (pre rest : Str) (c : Int) (l1 : Lex L)
    (h : expect (cur pre rest : Lex L) c = (none, l1)) :
    ∃ r, rest = runeString c ++ r ∧ l1 = cur (pre ++ runeString c) r := by
  by_cases hp : runeString c <+: rest
  · obtain ⟨r, hr⟩ := hp
    subst hr
    rw [expect_cur_ok] at h
    cases h
    exact ⟨r, rfl, rfl⟩
  · exfalso
    have hm : HasPrefix rest (runeString c) = false := by
      cases hb : HasPrefix rest (runeString c) with
      | false => rfl
      | true => exact absurd ((isPrefixOf_eq_true_iff _ _).1 hb) hp
    simp only [expect, lex.match_, cur, List.drop_left, hm, Bool.not_false, if_true] at h
    split at h <;> cases h

theorem runStep_inv_lit {L : Lib} (sp : StepSpec L) (pre rest : Str) (e : Entry L)
    (st1 : Lex L × Entry L) (hlast : sp.lastField = false)
    (h : runStep sp (cur pre rest, e) = .ok st1) :
    ∃ a r, rest = litText sp.lit ++ (a ++ (sp.sep ++ r)) ∧ FirstOcc a sp.sep ∧
      sp.conv a e = .ok st1.2 ∧ st1.1 = cur (pre ++ (litText sp.lit ++ (a ++ sp.sep))) r := by
  cases hl : sp.lit with
  | none =>
    obtain ⟨a, r, h1, h2, h3, h4⟩ := runStep_inv sp pre rest e st1 hl hlast h
    exact ⟨a, r, by simpa [litText] using h1, h2, h3, by simpa [litText] using h4⟩
  | some c =>
    rcases he : expect (cur pre rest : Lex L) c with ⟨_ | err, l1⟩
    · obtain ⟨r0, hr0, hl1⟩ := expect_cur_inv pre rest c l1 he
      subst hr0 hl1
      have h2 : runStep { sp with lit := none } (cur (pre ++ runeString c) r0, e) = .ok st1 := by
        simp only [runStep, hl, he] at h
        simp only [runStep]
        exact h
      obtain ⟨a, r, h1, hf, hc, hst⟩ :=
        runStep_inv { sp with lit := none } _ _ _ _ rfl hlast h2
      subst h1
      refine ⟨a, r, rfl, hf, hc, ?_⟩
      rw [hst]
      simp [litText, cur]
    · simp [runStep, hl, he] at h

theorem bytesStep_inv {L : Lib} (pre rest : Str) (e : Entry L) (st1 : Lex L × Entry L)
    (h : runStep (bytesStep L) (cur pre rest, e) = .ok st1) :
    (∃ a r n, rest = a ++ (bytes " " ++ r) ∧ 32 ∉ a ∧ L.Atoi a = .ok n ∧
        st1 = (cur (pre ++ (a ++ bytes " ")) r, { e with Bytes := n })) ∨
    (32 ∉ rest ∧ st1.1 = cur pre rest) := by
  by_cases hno : bytes " " <:+: rest
  · left
    cases ho : indexOpt rest (bytes " ") with
    | none => exact absurd hno ((indexOpt_eq_none_iff _ _).1 ho)
    | some i =>
      obtain ⟨a, r, hs, -, hf⟩ := indexOpt_some_inv _ _ _ ho
      subst hs
      have hn := nextField_cur_ok (L := L) pre a (bytes " ") r hf
      simp only [runStep, bytesStep, hn] at h
      cases ha : L.Atoi a with
      | error er => simp [ha] at h
      | ok n =>
        simp only [ha, Except.ok.injEq] at h
        exact ⟨a, r, n, rfl, (firstOcc_single a 32).1 hf, ha, h.symm⟩
  · right
    have hn := nextField_cur_fail (L := L) pre rest (bytes " ") hno
    simp only [runStep, bytesStep, hn, if_true] at h
    refine ⟨fun hm => hno ((mem_of_singleton_isInfix 32 rest).2 hm), ?_⟩
    split at h
    · cases h
    · cases h
      rfl

theorem runSteps_cons_ok {L : Lib} (sp : StepSpec L) (xs : List (StepSpec L))
    (st st2 : Lex L × Entry L) (h : runSteps (sp :: xs) st = .ok st2) :
    ∃ st1, runStep sp st = .ok st1 ∧ runSteps xs st1 = .ok st2 := by
  cases hs : runStep sp st with
  | error er => simp [runSteps, hs] at h
  | ok st1 =>
    simp only [runSteps, hs] at h
    exact ⟨st1, rfl, h⟩

theorem Combined_inv (L : Lib) (line : Str) (e : Entry L)
    (h : Combined L line = (some e, none)) :
    ∃ f v t, line = f.line ++ t ∧ (∀ j < 9, FieldOk L f v j) ∧ e = entryUpTo L f v 9 := by
  rw [Combined_steps, newLex_eq_cur] at h
  cases hr : runSteps (allSteps L) (cur [] line, Entry.zero L) with
  | error er => simp [hr, toResult] at h
  | ok st =>
  simp only [hr, toResult, Prod.mk.injEq, Option.some.injEq, and_true] at h
  subst h
  have hall : allSteps L = [hostStep L, identStep L, userStep L, timeStep L, requestStep L,
      statusStep L, bytesStep L, refererStep L, agentStep L] := rfl
  rw [hall] at hr
  -- host
  obtain ⟨⟨l0, e0⟩, hs0, hr⟩ := runSteps_cons_ok _ _ _ _ hr
  obtain ⟨a0, r0, hl0, hf0, hc0, hst0⟩ := runStep_inv_lit _ _ _ _ _ rfl hs0
  have hl0' : line = a0 ++ (bytes " " ++ r0) := hl0
  have hst0' : l0 = cur (a0 ++ bytes " ") r0 := hst0
  subst hst0'
  -- identity
  obtain ⟨⟨l1, e1⟩, hs1, hr⟩ := runSteps_cons_ok _ _ _ _ hr
  obtain ⟨a1, r1, hl1, hf1, hc1, hst1⟩ := runStep_inv_lit _ _ _ _ _ rfl hs1
  have hl1' : r0 = a1 ++ (bytes " " ++ r1) := hl1
  have hst1' : l1 = cur (a0 ++ bytes " " ++ (a1 ++ bytes " ")) r1 := hst1
  subst hst1'
  -- user
  obtain ⟨⟨l2, e2⟩, hs2, hr⟩ := runSteps_cons_ok _ _ _ _ hr
  obtain ⟨a2, r2, hl2, hf2, hc2, hst2⟩ := runStep_inv_lit _ _ _ _ _ rfl hs2
  have hl2' : r1 = a2 ++ (bytes " " ++ r2) := hl2
  have hst2' : l2 = cur (a0 ++ bytes " " ++ (a1 ++ bytes " ") ++ (a2 ++ bytes " ")) r2 := hst2
  subst hst2'
  -- timestamp
  obtain ⟨⟨l3, e3⟩, hs3, hr⟩ := runSteps_cons_ok _ _ _ _ hr
  obtain ⟨a3, r3, hl3, hf3, hc3, hst3⟩ := runStep_inv_lit _ _ _ _ _ rfl hs3
  have hl3' : r2 = bytes "[" ++ (a3 ++ (bytes "] " ++ r3)) := hl3
  have hst3' : l3 = cur (a0 ++ bytes " " ++ (a1 ++ bytes " ") ++ (a2 ++ bytes " ")
      ++ (bytes "[" ++ (a3 ++ bytes "] "))) r3 := hst3
  subst hst3'
  -- request line
  obtain ⟨⟨l4, e4⟩, hs4, hr⟩ := runSteps_cons_ok _ _ _ _ hr
  obtain ⟨a4, r4, hl4, hf4, hc4, hst4⟩ := runStep_inv_lit _ _ _ _ _ rfl hs4
  have hl4' : r3 = bytes "\"" ++ (a4 ++ (bytes "\" " ++ r4)) := hl4
  have hst4' : l4 = cur (a0 ++ bytes " " ++ (a1 ++ bytes " ") ++ (a2 ++ bytes " ")
      ++ (bytes "[" ++ (a3 ++ bytes "] ")) ++ (bytes "\"" ++ (a4 ++ bytes "\" "))) r4 := hst4
  subst hst4'
  -- status
  obtain ⟨⟨l5, e5⟩, hs5, hr⟩ := runSteps_cons_ok _ _ _ _ hr
  obtain ⟨a5, r5, hl5, hf5, hc5, hst5⟩ := runStep_inv_lit _ _ _ _ _ rfl hs5
  have hl5' : r4 = a5 ++ (bytes " " ++ r5) := hl5
  have hst5' : l5 = cur (a0 ++ bytes " " ++ (a1 ++ bytes " ") ++ (a2 ++ bytes " ")
      ++ (bytes "[" ++ (a3 ++ bytes "] ")) ++ (bytes "\"" ++ (a4 ++ bytes "\" "))
      ++ (a5 ++ bytes " ")) r5 := hst5
  subst hst5'
  -- bytes
  obtain ⟨⟨l6, e6⟩, hs6, hr⟩ := runSteps_cons_ok _ _ _ _ hr
  rcases bytesStep_inv _ _ _ _ hs6 with ⟨a6, r6, n6, hl6, hsp6, hat6, hst6⟩ | ⟨hno6, hst6⟩
  swap
  · exfalso
    simp only at hst6
    subst hst6
    obtain ⟨⟨l7, e7⟩, hs7, -⟩ := runSteps_cons_ok _ _ _ _ hr
    obtain ⟨a7, r7, hl7, -, -, -⟩ := runStep_inv_lit _ _ _ _ _ rfl hs7
    have hl7' : r5 = bytes "\"" ++ (a7 ++ (bytes "\" " ++ r7)) := hl7
    apply hno6
    rw [hl7']
    simp [bytes_quote, bytes_quote_space]
  simp only [Prod.mk.injEq] at hst6
  obtain ⟨hst6, he6⟩ := hst6
  subst hst6
  -- referer
  obtain ⟨⟨l7, e7⟩, hs7, hr⟩ := runSteps_cons_ok _ _ _ _ hr
  obtain ⟨a7, r7, hl7, hf7, hc7, hst7⟩ := runStep_inv_lit _ _ _ _ _ rfl hs7
  have hl7' : r6 = bytes "\"" ++ (a7 ++ (bytes "\" " ++ r7)) := hl7
  have hst7' : l7 = cur (a0 ++ bytes " " ++ (a1 ++ bytes " ") ++ (a2 ++ bytes " ")
      ++ (bytes "[" ++ (a3 ++ bytes "] ")) ++ (bytes "\"" ++ (a4 ++ bytes "\" "))
      ++ (a5 ++ bytes " ") ++ (a6 ++ bytes " ") ++ (bytes "\"" ++ (a7 ++ bytes "\" "))) r7 :=
    hst7
  subst hst7'
  -- user agent
  obtain ⟨⟨l8, e8⟩, hs8, hr⟩ := runSteps_cons_ok _ _ _ _ hr
  obtain ⟨a8, r8, hl8, hf8, hc8, -⟩ := runStep_inv_lit _ _ _ _ _ rfl hs8
  have hl8' : r7 = bytes "\"" ++ (a8 ++ (bytes "\"" ++ r8)) := hl8
  simp only [runSteps, Except.ok.injEq] at hr
  subst hr
  -- the converters
  simp only [hostStep] at hc0
  cases hip : L.ParseIP a0 with
  | none => simp [hip] at hc0
  | some hv =>
  simp only [hip, Except.ok.injEq] at hc0
  simp only [identStep, Except.ok.injEq] at hc1
  simp only [userStep, Except.ok.injEq] at hc2
  simp only [timeStep] at hc3
  cases htm : L.timeParse timeLayout a3 with
  | error er => simp [htm] at hc3
  | ok tm =>
  simp only [htm, Except.ok.injEq] at hc3
  simp only [requestStep] at hc4
  cases hrq : L.ReadRequest (a4 ++ bytes "\r\n\r\n") with
  | error er => simp [hrq] at hc4
  | ok rq =>
  simp only [hrq, Except.ok.injEq] at hc4
  simp only [statusStep] at hc5
  cases hsn : L.Atoi a5 with
  | error er => simp [hsn] at hc5
  | ok sn =>
  simp only [hsn, Except.ok.injEq] at hc5
  simp only [agentStep, Except.ok.injEq] at hc8
  refine ⟨⟨a0, a1, a2, a3, a4, a5, a6, a7, a8⟩, ⟨hv, tm, rq, sn, n6⟩, r8, ?_, ?_, ?_⟩
  · rw [hl0', hl1', hl2', hl3', hl4', hl5', hl6, hl7', hl8']
    simp [Fields.line, Fields.upTo, Fields.seg, Fields.text, fieldLit, fieldSep]
  · have hne1 : bytes " " ≠ [] := by decide
    have hne2 : bytes "] " ≠ [] := by decide
    have hne3 : bytes "\" " ≠ [] := by decide
    have hne4 : bytes "\"" ≠ [] := by decide
    intro j hj
    interval_cases j
    · exact ⟨firstOcc_not_isInfix _ _ hne1 hf0, hip⟩
    · exact ⟨firstOcc_not_isInfix _ _ hne1 hf1, trivial⟩
    · exact ⟨firstOcc_not_isInfix _ _ hne1 hf2, trivial⟩
    · exact ⟨firstOcc_not_isInfix _ _ hne2 hf3, htm⟩
    · exact ⟨firstOcc_not_isInfix _ _ hne3 hf4, hrq⟩
    · exact ⟨firstOcc_not_isInfix _ _ hne1 hf5, hsn⟩
    · exact ⟨fun hm => hsp6 ((mem_of_singleton_isInfix 32 a6).1 hm), hat6⟩
    · exact ⟨firstOcc_not_isInfix _ _ hne3 hf7, trivial⟩
    · exact ⟨firstOcc_not_isInfix _ _ hne4 hf8, trivial⟩
  · subst hc0 hc1 hc2 hc3 hc4 hc5 he6 hc8
    simp only [refererStep] at hc7
    by_cases hd : a7 = bytes "-"
    · simp only [hd, if_true, Except.ok.injEq] at hc7
      subst hc7
      simp only [entryUpTo, setField, if_pos hd]
    · simp only [hd, if_false] at hc7
      cases hu : L.ParseRequestURI a7 with
      | error er =>
        simp only [hu, Except.ok.injEq] at hc7
        subst hc7
        simp only [entryUpTo, setField, hd, if_false, hu]
      | ok u =>
        simp only [hu, Except.ok.injEq] at hc7
        subst hc7
        simp only [entryUpTo, setField, hd, if_false, hu]

/-! ## Round trip of `Combined` after `String` -/

set_option maxRecDepth 100000 in
/-- C19. Round trip parse-after-print, on a line whose referer field is `"-"`: `Combined`
succeeds on the line of scenario 1 with the referer `-` and returns `entryDash`, whose
referer is absent; the converters of `textLib` parse back what the formatters write for
this entry; `String` writes the absent referer as a bare `-` without the quotes, and
`Combined` on `entryDash.String()` returns no entry and the error of `expect`, which finds
`-` at column 87 where it expects the quote `"`. -/
theorem parse_after_print_fails_on_dash :
    Combined textLib (({ fields1 with referer := bytes "-" } : Fields).line)
      = (some entryDash, none) ∧
    ParsesBack textLib entryDash ∧
    entryDash.String
      = bytes "127.0.0.1 - frank [10/Oct/2000:13:55:36 -0700] \"GET /apache_pb.gif HTTP/1.0\" 200 2326 - \"Mozilla/4.08\"xyz" ∧
    Combined textLib entryDash.String = (none, some (.expectedGot 87 34 45)) := by
  refine ⟨rfl, ?_, by decide, rfl⟩
  refine ⟨?_, ⟨rfl, by decide⟩, ?_, ⟨rfl, by decide⟩, ⟨rfl, by decide⟩, ?_⟩
  · intro h hh
    cases hh
    exact ⟨rfl, by decide⟩
  · intro r hr
    cases hr
    exact ⟨rfl, by decide⟩
  · intro u hu
    cases hu

theorem String_of_present {L : Lib} (e : Entry L) (h : L.IP) (r : L.Request) (u : L.URL)
    (hh : e.Host = some h) (hr : e.Request = some r) (hu : e.Referer = some u)
    (huser : e.User ≠ []) (ht : L.timeIsZero e.Time = false) (hs : 0 ≤ e.Status)
    (ha : e.UserAgent ≠ []) (hrt : e.ResponseTime = 0) :
    e.String
      = (printedFields L e h r u).line ++ bytes "xyz" := by
  simp only [Entry.String, hh, hr, hu, huser, ht, not_lt.2 hs, ha, hrt, floatIsZero,
    printedFields, requestLine, Fields.line, Fields.upTo, Fields.seg, Fields.text, fieldLit,
    fieldSep, if_false]
  simp [bytes_space, bytes_dash, bytes_dash_space, bytes_lbracket, bytes_rbracket,
    bytes_rbracket_space, bytes_quote, bytes_quote_space]

/-- Where the round trip does hold. Let `Combined` succeed on a line with entry `e`, and
let each library converter parse back the text that the matching formatter writes for the
field of `e` (a text without the delimiter of the field). If `String` takes none of its
`-` branches on `e`, that is, the user and the user agent are not empty, the time is not
zero, the status is not negative and the referer is not absent, then `Combined` succeeds
on `e.String()` and returns `e` again. -/
theorem parse_after_print (L : Lib) (line : Str) (e : Entry L)
    (h : Combined L line = (some e, none)) (hpb : ParsesBack L e)
    (huser : e.User ≠ []) (ht : L.timeIsZero e.Time = false) (hs : 0 ≤ e.Status)
    (href : e.Referer ≠ none) (ha : e.UserAgent ≠ []) :
    Combined L e.String = (some e, none) := by
  obtain ⟨f, v, t, -, hok, he⟩ := Combined_inv L line e h
  have h9 : entryUpTo L f v 9
      = { Host := some v.host, User := f.user, Time := v.time, Request := some v.request,
          Status := v.status, Bytes := v.bytes, Referer := (entryUpTo L f v 9).Referer,
          UserAgent := f.agent, XForwardedFor := [], ResponseTime := 0 } := by
    simp only [entryUpTo, setField, Entry.zero]
    split
    · rfl
    · split <;> rfl
  cases hu : e.Referer with
  | none => exact absurd hu href
  | some u =>
  rw [he] at hu
  rw [hu] at h9
  rw [← he] at h9
  obtain ⟨hp0, hp3, hp4, hp5, hp6, hp7⟩ := hpb
  have hh : e.Host = some v.host := by rw [h9]
  have hr : e.Request = some v.request := by rw [h9]
  have hru : e.Referer = some u := by rw [h9]
  have hrt : e.ResponseTime = 0 := by rw [h9]
  have hstr := String_of_present e v.host v.request u hh hr hru huser ht hs ha hrt
  have hinf : ∀ x : Str, 32 ∉ x → ¬ bytes " " <:+: x :=
    fun x hx hm => hx ((mem_of_singleton_isInfix 32 x).1 hm)
  have hok2 : ∀ j < 9, FieldOk L (printedFields L e v.host v.request u)
      { host := v.host, time := e.Time, request := v.request, status := e.Status,
        bytes := e.Bytes } j := by
    intro j hj
    interval_cases j
    · exact ⟨hinf _ (hp0 _ hh).2, (hp0 _ hh).1⟩
    · exact ⟨show ¬ bytes " " <:+: bytes "-" by decide, trivial⟩
    · have h2 := (hok 2 (by omega)).1
      have hu2 : e.User = f.user := by rw [h9]
      exact ⟨by rw [show (printedFields L e v.host v.request u).text 2 = e.User from rfl, hu2]
                exact h2, trivial⟩
    · exact ⟨hp3.2, hp3.1⟩
    · exact ⟨(hp4 _ hr).2, (hp4 _ hr).1⟩
    · exact ⟨hinf _ hp5.2, hp5.1⟩
    · exact ⟨hinf _ hp6.2, hp6.1⟩
    · exact ⟨(hp7 _ hru).2.1, trivial⟩
    · have h8 := (hok 8 (by omega)).1
      have hu8 : e.UserAgent = f.agent := by rw [h9]
      exact ⟨by rw [show (printedFields L e v.host v.request u).text 8 = e.UserAgent from rfl,
                  hu8]
                exact h8, trivial⟩
  rw [hstr, Combined_wellformed L _ _ hok2 (bytes "xyz")]
  have hne : (printedFields L e v.host v.request u).referer ≠ bytes "-" := (hp7 _ hru).2.2
  have hpu : L.ParseRequestURI (printedFields L e v.host v.request u).referer = .ok u :=
    (hp7 _ hru).1
  simp only [entryUpTo, setField, hne, if_false, hpu, Entry.zero]
  rw [h9]
  rfl

set_option maxRecDepth 100000 in
/-- The round trip on the entry of the line of scenario 1, with `textLib`. -/
theorem parse_after_print_witness :
    Combined textLib (entryUpTo textLib fields1 values1 9).String
      = (some (entryUpTo textLib fields1 values1 9), none) :=
  parse_after_print textLib (fields1.line ++ []) (entryUpTo textLib fields1 values1 9)
    (Combined_wellformed textLib fields1 values1 fields1_ok [])
    ⟨fun h hh => by cases hh; exact ⟨rfl, by decide⟩, ⟨rfl, by decide⟩,
      fun r hr => by cases hr; exact ⟨rfl, by decide⟩, ⟨rfl, by decide⟩, ⟨rfl, by decide⟩,
      fun u hu => by cases hu; exact ⟨rfl, by decide, by decide⟩⟩
    (by decide) rfl (by decide)
    (by
      rw [show (entryUpTo textLib fields1 values1 9).Referer
        = some (bytes "http://www.example.com/start.html") from rfl]
      exact Option.some_ne_none _)
    (by decide)

/-! ## Text after the user agent -/

/-- C21. Trailing text is ignored by `Combined`: when `Combined` succeeds on a line with
entry `e`, it succeeds on the line followed by any text `t` and returns the same entry
`e`. -/
theorem trailing_text_ignored (L : Lib) (line : Str) (e : Entry L) (t : Str)
    (h : Combined L line = (some e, none)) :
    Combined L (line ++ t) = (some e, none) := by
  obtain ⟨f, v, t0, hline, hok, he⟩ := Combined_inv L line e h
  rw [hline, List.append_assoc, Combined_wellformed L f v hok (t0 ++ t), he]

set_option maxRecDepth 100000 in
/-- Witness of C21: the line of scenario 1 followed by a response time, as the log lines
read by `main` are. -/
theorem trailing_text_ignored_witness :
    Combined textLib (fields1.line ++ [])
      = (some (entryUpTo textLib fields1 values1 9), none) ∧
    Combined textLib (fields1.line ++ [] ++ bytes " 0.042")
      = (some (entryUpTo textLib fields1 values1 9), none) :=
  ⟨Combined_wellformed textLib fields1 values1 fields1_ok [],
    trailing_text_ignored textLib (fields1.line ++ []) (entryUpTo textLib fields1 values1 9)
      (bytes " 0.042") (Combined_wellformed textLib fields1 values1 fields1_ok [])⟩

end Weblog
